import Mathlib

/-!
Verification of the `atlas` Magic: The Gathering Amulet Titan simulation core
(`src/cards.rs`, `src/game_state.rs`, `src/game_action.rs`).

The Rust code is shallowly embedded: every structure and function below is a
direct translation of the corresponding Rust item (same names, snake_case kept
where Lean allows).  Rust `u8` card counts wrap modulo 256 on increment; the
`usize` counters (`size`, `land_plays`, `next_id`) are modelled as `Nat` (their
subtractions in the source are either guarded or `saturating_sub`, which is
exactly `Nat` truncated subtraction).  `HashMap` fields are modelled as
association lists with key-unique insert/remove.  The `StdRng` random stream is
modelled abstractly as an infinite sequence of naturals together with a cursor;
`gen_range(0..n)` reads the next element modulo `n`.
-/

set_option autoImplicit false

namespace Atlas

-- ===========================================================================
-- cards.rs
-- ===========================================================================

/-- `enum Land` from `cards.rs` (declaration order preserved). -/
inductive Land where
  | boseijuWhoEndures
  | crumblingVestige
  | echoingDeeps
  | forest
  | gruulTurf
  | hanweirBattlements
  | lotusField
  | mirrorpool
  | otawaraSoaringCity
  | shiftingWoodland
  | simicGrowthChamber
  | theMycosynthGardens
  | tolariaWest
  | urzasCave
  | urzasSaga
  | vesuva
  deriving DecidableEq, Fintype, Repr

/-- `enum Permanent` from `cards.rs`. -/
inductive Permanent where
  | amuletOfVigor
  | spelunking
  | aftermathAnalyst
  | arborealGrazer
  | cultivatorColossus
  | primevalTitan
  deriving DecidableEq, Fintype, Repr

/-- `enum Sorcery` from `cards.rs`. -/
inductive Sorcery where
  | explore
  | greenSunsZenith
  | scapeshift
  deriving DecidableEq, Fintype, Repr

/-- `enum Instant` from `cards.rs`. -/
inductive Instant where
  | summonersPact
  deriving DecidableEq, Fintype, Repr

/-- `enum NonPermanent` from `cards.rs`. -/
inductive NonPermanent where
  | sorcery (s : Sorcery)
  | instant (i : Instant)
  deriving DecidableEq, Fintype, Repr

/-- `enum Spell` from `cards.rs`. -/
inductive Spell where
  | permanent (p : Permanent)
  | nonPermanent (np : NonPermanent)
  deriving DecidableEq, Fintype, Repr

/-- `enum Card` from `cards.rs`. -/
inductive Card where
  | land (l : Land)
  | spell (s : Spell)
  deriving DecidableEq, Fintype, Repr

/-- The `CardType` bitflags from `cards.rs`, as bits of a `u8`-sized `Nat`. -/
def CardType.LAND : Nat := 1
def CardType.ARTIFACT : Nat := 2
def CardType.ENCHANTMENT : Nat := 4
def CardType.CREATURE : Nat := 8
def CardType.SORCERY : Nat := 16
def CardType.INSTANT : Nat := 32

/-- `card_type` from `cards.rs`: the type bitmask of a card.  Urza's Saga is
both a Land and an Enchantment; all other cards have a single bit. -/
def card_type : Card → Nat
  | .land l =>
    match l with
    | .urzasSaga => CardType.LAND ||| CardType.ENCHANTMENT
    | _ => CardType.LAND
  | .spell s =>
    match s with
    | .permanent p =>
      match p with
      | .amuletOfVigor => CardType.ARTIFACT
      | .spelunking => CardType.ENCHANTMENT
      | .aftermathAnalyst | .arborealGrazer | .cultivatorColossus
      | .primevalTitan => CardType.CREATURE
    | .nonPermanent np =>
      match np with
      | .sorcery _ => CardType.SORCERY
      | .instant _ => CardType.INSTANT

/-- The 26 cards in the `enum_map::Enum` derived iteration order of `Card`
(`Land` variants first, then `Spell::Permanent`, then `Spell::NonPermanent`,
each in declaration order). -/
def allCards : List Card :=
  [ .land .boseijuWhoEndures, .land .crumblingVestige, .land .echoingDeeps,
    .land .forest, .land .gruulTurf, .land .hanweirBattlements,
    .land .lotusField, .land .mirrorpool, .land .otawaraSoaringCity,
    .land .shiftingWoodland, .land .simicGrowthChamber,
    .land .theMycosynthGardens, .land .tolariaWest, .land .urzasCave,
    .land .urzasSaga, .land .vesuva,
    .spell (.permanent .amuletOfVigor), .spell (.permanent .spelunking),
    .spell (.permanent .aftermathAnalyst), .spell (.permanent .arborealGrazer),
    .spell (.permanent .cultivatorColossus), .spell (.permanent .primevalTitan),
    .spell (.nonPermanent (.sorcery .explore)),
    .spell (.nonPermanent (.sorcery .greenSunsZenith)),
    .spell (.nonPermanent (.sorcery .scapeshift)),
    .spell (.nonPermanent (.instant .summonersPact)) ]

-- ===========================================================================
-- game_state.rs : random stream and Library
-- ===========================================================================

/-- Abstract model of `StdRng`: an infinite stream of naturals plus a cursor.
`gen_range(0..n)` yields the next stream element reduced modulo `n`. -/
structure Rng where
  seq : Nat → Nat
  idx : Nat

/-- `rng.gen_range(0..n)`: next stream value modulo `n`, advancing the cursor. -/
def Rng.gen_range (r : Rng) (n : Nat) : Nat × Rng :=
  (r.seq r.idx % n, ⟨r.seq, r.idx + 1⟩)

/-- `struct Library` from `game_state.rs`: per-card `u8` counts (as `Nat`,
kept below 256 by the mod-256 increment), a total `size`, and the rng. -/
structure Library where
  cards : Card → Nat
  size : Nat
  rng : Rng

/-- The flattened list of remaining cards in `enum_map` iteration order: each
card repeated `count` times, exactly the `available_cards` vector built inside
`Library::draw_random_card`. -/
def availableCards (f : Card → Nat) : List Card :=
  allCards.flatMap (fun c => List.replicate (f c) c)

/-- `Library::add_card`: increments the card's `u8` count (wrapping at 256,
as Rust release-mode `+= 1` does) and the size. -/
def Library.add_card (lib : Library) (c : Card) : Library :=
  { lib with
    cards := Function.update lib.cards c ((lib.cards c + 1) % 256)
    size := lib.size + 1 }

/-- `Library::draw_random_card`: returns `none` if the library is empty,
otherwise picks a uniformly random remaining card, decrements its count and
`size`, and returns it.  The branch where `size ≠ 0` but no card has a
positive count corresponds to the source faulting in `gen_range` over an
empty range; it is unreachable whenever `size` equals the sum of the counts. -/
def Library.draw_random_card (lib : Library) : Option Card × Library :=
  if lib.size = 0 then (none, lib)
  else
    match availableCards lib.cards with
    | [] => (none, lib)
    | a :: rest =>
      let avail := a :: rest
      let pick := lib.rng.gen_range avail.length
      let drawn := avail.getD pick.1 a
      (some drawn,
        { cards := Function.update lib.cards drawn (lib.cards drawn - 1)
          size := lib.size - 1
          rng := pick.2 })

-- ===========================================================================
-- game_state.rs : zones, stack, players, GameState
-- ===========================================================================

/-- `enum TapState` from `game_state.rs`. -/
inductive TapState where
  | tapped
  | untapped
  deriving DecidableEq, Fintype, Repr

/-- `struct GameObject<A>` from `game_state.rs`. -/
structure GameObject (A : Type) where
  permanent : A
  tap_state : TapState
  deriving DecidableEq, Repr

/-- `GameObjectId` is a `usize`; modelled as `Nat`. -/
abbrev GameObjectId := Nat

/-- `StackObjectId` is a `usize`; modelled as `Nat`. -/
abbrev StackObjectId := Nat

/-- `enum Trigger` from `game_state.rs`. -/
inductive Trigger where
  | enters (c : Card)
  | amuletUntap (id : GameObjectId)
  deriving DecidableEq, Repr

/-- `enum Target` from `game_state.rs`. -/
inductive Target where
  | object (id : GameObjectId)
  | spell (id : StackObjectId)
  deriving DecidableEq, Repr

/-- `enum StackObject` from `game_state.rs`. -/
inductive StackObject where
  | spell (s : Spell)
  | trigger (t : Trigger)
  | activatedAbility (source : GameObjectId) (target : Option Target)
  deriving DecidableEq, Repr

/-- `struct Stack` from `game_state.rs`: `Vec` push/pop happen at the end of
the list. -/
structure Stack where
  objects : List StackObject
  deriving DecidableEq, Repr

/-- `struct Hand` from `game_state.rs`. -/
structure Hand where
  lands : List Land
  spells : List Spell
  deriving DecidableEq, Repr

/-- `struct Graveyard` from `game_state.rs`. -/
structure Graveyard where
  spells : List Spell
  lands : List Land
  deriving DecidableEq, Repr

/-- A `HashMap<GameObjectId, GameObject<A>>` modelled as an association list
with key-unique insert/remove. -/
abbrev ObjMap (A : Type) := List (GameObjectId × GameObject A)

/-- `HashMap::insert`: adds the binding, replacing any binding with the same
key. -/
def ObjMap.insert {A : Type} (m : ObjMap A) (k : GameObjectId)
    (v : GameObject A) : ObjMap A :=
  (k, v) :: m.filter (fun p => p.1 ≠ k)

/-- `HashMap::remove`: drops the binding with the given key (if any) and
returns its value. -/
def ObjMap.remove {A : Type} (m : ObjMap A) (k : GameObjectId) :
    Option (GameObject A) × ObjMap A :=
  ((m.find? (fun p => p.1 = k)).map (fun p => p.2),
   m.filter (fun p => p.1 ≠ k))

/-- The keys of an `ObjMap`. -/
def ObjMap.keys {A : Type} (m : ObjMap A) : List GameObjectId :=
  m.map (fun p => p.1)

/-- `struct Battlefield` from `game_state.rs`. -/
structure Battlefield where
  lands : ObjMap Land
  non_lands : ObjMap Permanent
  land_plays : Nat

/-- `struct ManaPool` from `game_state.rs`. -/
structure ManaPool where
  white : Nat
  blue : Nat
  black : Nat
  red : Nat
  green : Nat
  colorless : Nat
  deriving DecidableEq, Repr

/-- `enum PlayerId` from `game_state.rs`. -/
inductive PlayerId where
  | active
  | nonActive
  deriving DecidableEq, Fintype, Repr

/-- `struct Player` from `game_state.rs`. -/
structure Player where
  life_total : Int
  library : Library
  hand : Hand
  battlefield : Battlefield
  graveyard : Graveyard
  mana_pool : ManaPool

/-- `struct GameState` from `game_state.rs`. -/
structure GameState where
  active_player : Player
  non_active_player : Option Player
  stack : Stack
  priority : PlayerId
  next_id : Nat

/-- `GameState::next_game_object_id`: returns the current counter value and
increments it. -/
def GameState.next_game_object_id (s : GameState) : GameObjectId × GameState :=
  (s.next_id, { s with next_id := s.next_id + 1 })

-- ===========================================================================
-- game_state.rs : Graveyard::has_delirium
-- ===========================================================================

/-- `Graveyard::iter`: land cards chained with spell cards. -/
def Graveyard.iterCards (g : Graveyard) : List Card :=
  g.lands.map Card.land ++ g.spells.map Card.spell

/-- Number of set bits among the low 8 bits (`u8::count_ones`; every
`CardType` mask fits in 8 bits). -/
def popCount (n : Nat) : Nat :=
  (List.range 8).countP (fun i => n.testBit i)

/-- The bitwise union of `card_type` over all graveyard cards (the fold in
`Graveyard::has_delirium`). -/
def Graveyard.typeUnion (g : Graveyard) : Nat :=
  (g.iterCards.map card_type).foldl (fun a b => a ||| b) 0

/-- `Graveyard::has_delirium`: 4 or more distinct card-type bits among the
graveyard's cards. -/
def Graveyard.has_delirium (g : Graveyard) : Bool :=
  decide (4 ≤ popCount g.typeUnion)

-- ===========================================================================
-- game_action.rs : actions and results
-- ===========================================================================

/-- `enum PrimitiveGameAction` from `game_action.rs`. -/
inductive PrimitiveGameAction where
  | drawCards (count : Nat)
  | millCards (count : Nat)
  | playLand (l : Land) (t : TapState)
  | increaseLandPlays (amount : Nat)
  | searchLibraryToHand (cards : List Card)
  | searchLibraryToBattlefield (objs : List (GameObject Card))
  | trigger (t : Trigger)

/-- `enum GameAction` from `game_action.rs`. -/
inductive GameAction where
  | passPriority
  | primitive (p : PrimitiveGameAction)
  | castSpell (s : Spell)
  | activateAbility (source : GameObjectId) (target : Option Target)
  | sequence (actions : List PrimitiveGameAction)

/-- `enum PrimitiveGameActionResult` from `game_action.rs`. -/
inductive PrimitiveGameActionResult where
  | drawCards (cards : List Card)
  | millCards (cards : List Card)
  | playLand (id : GameObjectId)
  | increaseLandPlays (amount : Nat)
  | searchLibraryToHand (cards : List Card)
  | searchLibraryToBattlefield (ids : List GameObjectId)
  | trigger

/-- `enum GameActionResult` from `game_action.rs`. -/
inductive GameActionResult where
  | passPriority
  | primitive (r : PrimitiveGameActionResult)
  | castSpell
  | activateAbility (source : GameObjectId)
  | sequence (results : List PrimitiveGameActionResult)

-- ===========================================================================
-- game_action.rs : apply
-- ===========================================================================

/-- One iteration of the `DrawCards` loop body: draw a card and, if one was
drawn, push it into the matching hand sub-sequence. -/
def drawStep (s : GameState) : Option Card × GameState :=
  match s.active_player.library.draw_random_card with
  | (none, lib) => (none, { s with active_player := { s.active_player with library := lib } })
  | (some c, lib) =>
    match c with
    | .land l =>
      (some c,
        { s with active_player :=
          { s.active_player with
            library := lib
            hand := { s.active_player.hand with
                      lands := s.active_player.hand.lands ++ [l] } } })
    | .spell sp =>
      (some c,
        { s with active_player :=
          { s.active_player with
            library := lib
            hand := { s.active_player.hand with
                      spells := s.active_player.hand.spells ++ [sp] } } })

/-- The `for _ in 0..count` loop of `PrimitiveGameAction::apply` for
`DrawCards`, accumulating the list of drawn cards in order. -/
def drawLoop : Nat → GameState → List Card × GameState
  | 0, s => ([], s)
  | n + 1, s =>
    match drawStep s with
    | (none, s1) => drawLoop n s1
    | (some c, s1) =>
      let rest := drawLoop n s1
      (c :: rest.1, rest.2)

/-- One iteration of the `MillCards` loop body: draw a card and, if one was
drawn, push it into the matching graveyard sub-sequence. -/
def millStep (s : GameState) : Option Card × GameState :=
  match s.active_player.library.draw_random_card with
  | (none, lib) => (none, { s with active_player := { s.active_player with library := lib } })
  | (some c, lib) =>
    match c with
    | .land l =>
      (some c,
        { s with active_player :=
          { s.active_player with
            library := lib
            graveyard := { s.active_player.graveyard with
                           lands := s.active_player.graveyard.lands ++ [l] } } })
    | .spell sp =>
      (some c,
        { s with active_player :=
          { s.active_player with
            library := lib
            graveyard := { s.active_player.graveyard with
                           spells := s.active_player.graveyard.spells ++ [sp] } } })

/-- The `for _ in 0..count` loop of `PrimitiveGameAction::apply` for
`MillCards`. -/
def millLoop : Nat → GameState → List Card × GameState
  | 0, s => ([], s)
  | n + 1, s =>
    match millStep s with
    | (none, s1) => millLoop n s1
    | (some c, s1) =>
      let rest := millLoop n s1
      (c :: rest.1, rest.2)

/-- The loop body of `SearchLibraryToHand`: saturating-decrement the card's
library count and the size, then push the card into the hand. -/
def searchToHandStep (s : GameState) (c : Card) : GameState :=
  let lib := s.active_player.library
  let lib1 : Library :=
    { lib with
      cards := Function.update lib.cards c (lib.cards c - 1)
      size := lib.size - 1 }
  match c with
  | .land l =>
    { s with active_player :=
      { s.active_player with
        library := lib1
        hand := { s.active_player.hand with
                  lands := s.active_player.hand.lands ++ [l] } } }
  | .spell sp =>
    { s with active_player :=
      { s.active_player with
        library := lib1
        hand := { s.active_player.hand with
                  spells := s.active_player.hand.spells ++ [sp] } } }

/-- The `for card in cards` loop of `SearchLibraryToHand`. -/
def searchToHandLoop : List Card → GameState → GameState
  | [], s => s
  | c :: cs, s => searchToHandLoop cs (searchToHandStep s c)

/-- The loop body of `SearchLibraryToBattlefield`: saturating-decrement the
library entry, then (for a land or a permanent spell) mint a fresh id and
insert the object into the matching battlefield map; a non-permanent spell
adds nothing and yields no id. -/
def searchToBattlefieldStep (s : GameState) (obj : GameObject Card) :
    Option GameObjectId × GameState :=
  let lib := s.active_player.library
  let lib1 : Library :=
    { lib with
      cards := Function.update lib.cards obj.permanent (lib.cards obj.permanent - 1)
      size := lib.size - 1 }
  let s1 : GameState :=
    { s with active_player := { s.active_player with library := lib1 } }
  match obj.permanent with
  | .land l =>
    let mint := s1.next_game_object_id
    (some mint.1,
      { mint.2 with active_player :=
        { mint.2.active_player with
          battlefield :=
            { mint.2.active_player.battlefield with
              lands := mint.2.active_player.battlefield.lands.insert mint.1
                ⟨l, obj.tap_state⟩ } } })
  | .spell (.permanent p) =>
    let mint := s1.next_game_object_id
    (some mint.1,
      { mint.2 with active_player :=
        { mint.2.active_player with
          battlefield :=
            { mint.2.active_player.battlefield with
              non_lands := mint.2.active_player.battlefield.non_lands.insert mint.1
                ⟨p, obj.tap_state⟩ } } })
  | .spell (.nonPermanent _) => (none, s1)

/-- The `for game_object in game_objects` loop of `SearchLibraryToBattlefield`,
accumulating the minted ids in order. -/
def searchToBattlefieldLoop :
    List (GameObject Card) → GameState → List GameObjectId × GameState
  | [], s => ([], s)
  | o :: os, s =>
    match searchToBattlefieldStep s o with
    | (none, s1) => searchToBattlefieldLoop os s1
    | (some id, s1) =>
      let rest := searchToBattlefieldLoop os s1
      (id :: rest.1, rest.2)

/-- `PrimitiveGameAction::apply` from `game_action.rs`. -/
def PrimitiveGameAction.apply (a : PrimitiveGameAction) (s : GameState) :
    PrimitiveGameActionResult × GameState :=
  match a with
  | .drawCards count =>
    let r := drawLoop count s
    (.drawCards r.1, r.2)
  | .millCards count =>
    let r := millLoop count s
    (.millCards r.1, r.2)
  | .playLand l t =>
    let mint := s.next_game_object_id
    (.playLand mint.1,
      { mint.2 with active_player :=
        { mint.2.active_player with
          battlefield :=
            { mint.2.active_player.battlefield with
              lands := mint.2.active_player.battlefield.lands.insert mint.1 ⟨l, t⟩ } } })
  | .increaseLandPlays amount =>
    (.increaseLandPlays amount,
      { s with active_player :=
        { s.active_player with
          battlefield :=
            { s.active_player.battlefield with
              land_plays := s.active_player.battlefield.land_plays + amount } } })
  | .searchLibraryToHand cards =>
    (.searchLibraryToHand cards, searchToHandLoop cards s)
  | .searchLibraryToBattlefield objs =>
    let r := searchToBattlefieldLoop objs s
    (.searchLibraryToBattlefield r.1, r.2)
  | .trigger t =>
    (.trigger,
      { s with stack := { objects := s.stack.objects ++ [StackObject.trigger t] } })

/-- `GameAction::apply` for `Sequence`: apply each primitive in order,
collecting one result per step. -/
def sequenceApplyLoop :
    List PrimitiveGameAction → GameState → List PrimitiveGameActionResult × GameState
  | [], s => ([], s)
  | a :: as_, s =>
    let r := a.apply s
    let rest := sequenceApplyLoop as_ r.2
    (r.1 :: rest.1, rest.2)

/-- `match` on `game_state.priority` in `PassPriority`: toggle the flag. -/
def togglePriority : PlayerId → PlayerId
  | .active => .nonActive
  | .nonActive => .active

/-- `GameAction::apply` from `game_action.rs`. -/
def GameAction.apply (a : GameAction) (s : GameState) :
    GameActionResult × GameState :=
  match a with
  | .passPriority =>
    (.passPriority, { s with priority := togglePriority s.priority })
  | .primitive p =>
    let r := p.apply s
    (.primitive r.1, r.2)
  | .castSpell sp =>
    (.castSpell,
      { s with stack := { objects := s.stack.objects ++ [StackObject.spell sp] } })
  | .activateAbility source target =>
    (.activateAbility source,
      { s with stack :=
        { objects := s.stack.objects ++ [StackObject.activatedAbility source target] } })
  | .sequence actions =>
    let r := sequenceApplyLoop actions s
    (.sequence r.1, r.2)

-- ===========================================================================
-- game_action.rs : revert
-- ===========================================================================

/-- The first loop of the `DrawCards` revert: re-insert every drawn card into
the library (forward order, as in the source). -/
def drawRevertAdds (cards : List Card) (s : GameState) : GameState :=
  cards.foldl
    (fun st c =>
      { st with active_player :=
        { st.active_player with library := st.active_player.library.add_card c } })
    s

/-- Whether a card is a land (used for the lands-drawn / spells-drawn counts
in the `DrawCards` revert). -/
def Card.isLand : Card → Bool
  | .land _ => true
  | .spell _ => false

/-- `PrimitiveGameActionResult::revert` for `DrawCards`: re-add every card to
the library, then truncate each hand sub-sequence by the number of drawn cards
of that kind (`Vec::truncate` keeps the first `k` entries;
`len.saturating_sub(drawn)` is `Nat` subtraction). -/
def drawRevert (cards : List Card) (s : GameState) : GameState :=
  let s1 := drawRevertAdds cards s
  let lands_drawn := cards.countP Card.isLand
  let spells_drawn := cards.countP (fun c => ! c.isLand)
  { s1 with active_player :=
    { s1.active_player with
      hand :=
        { lands := s1.active_player.hand.lands.take
            (s1.active_player.hand.lands.length - lands_drawn)
          spells := s1.active_player.hand.spells.take
            (s1.active_player.hand.spells.length - spells_drawn) } } }

/-- One step of the `MillCards` revert: remove the first graveyard entry equal
to the card (if any), then re-insert the card into the library. -/
def millRevertStep (st : GameState) (c : Card) : GameState :=
  let st1 : GameState :=
    match c with
    | .land l =>
      { st with active_player :=
        { st.active_player with
          graveyard := { st.active_player.graveyard with
                         lands := st.active_player.graveyard.lands.erase l } } }
    | .spell sp =>
      { st with active_player :=
        { st.active_player with
          graveyard := { st.active_player.graveyard with
                         spells := st.active_player.graveyard.spells.erase sp } } }
  { st1 with active_player :=
    { st1.active_player with library := st1.active_player.library.add_card c } }

/-- One step of the `SearchLibraryToHand` revert: remove the first hand entry
equal to the card (if any), then re-insert the card into the library. -/
def searchHandRevertStep (st : GameState) (c : Card) : GameState :=
  let st1 : GameState :=
    match c with
    | .land l =>
      { st with active_player :=
        { st.active_player with
          hand := { st.active_player.hand with
                    lands := st.active_player.hand.lands.erase l } } }
    | .spell sp =>
      { st with active_player :=
        { st.active_player with
          hand := { st.active_player.hand with
                    spells := st.active_player.hand.spells.erase sp } } }
  { st1 with active_player :=
    { st1.active_player with library := st1.active_player.library.add_card c } }

/-- One step of the `SearchLibraryToBattlefield` revert: remove the id from
`battlefield.lands` (returning its card to the library) or, failing that,
from `battlefield.non_lands`. -/
def searchBattlefieldRevertStep (st : GameState) (id : GameObjectId) : GameState :=
  match st.active_player.battlefield.lands.remove id with
  | (some obj, lands1) =>
    { st with active_player :=
      { st.active_player with
        battlefield := { st.active_player.battlefield with lands := lands1 }
        library := st.active_player.library.add_card (.land obj.permanent) } }
  | (none, _) =>
    match st.active_player.battlefield.non_lands.remove id with
    | (some obj, nl1) =>
      { st with active_player :=
        { st.active_player with
          battlefield := { st.active_player.battlefield with non_lands := nl1 }
          library := st.active_player.library.add_card (.spell (.permanent obj.permanent)) } }
    | (none, _) => st

/-- `PrimitiveGameActionResult::revert` from `game_action.rs`.  The loops over
`cards.iter().rev()` / `object_ids.iter().rev()` are folds over the reversed
list. -/
def PrimitiveGameActionResult.revert (r : PrimitiveGameActionResult)
    (s : GameState) : GameState :=
  match r with
  | .drawCards cards => drawRevert cards s
  | .millCards cards => cards.reverse.foldl millRevertStep s
  | .playLand id =>
    { s with active_player :=
      { s.active_player with
        battlefield :=
          { s.active_player.battlefield with
            lands := (s.active_player.battlefield.lands.remove id).2 } } }
  | .increaseLandPlays amount =>
    { s with active_player :=
      { s.active_player with
        battlefield :=
          { s.active_player.battlefield with
            land_plays := s.active_player.battlefield.land_plays - amount } } }
  | .searchLibraryToHand cards => cards.reverse.foldl searchHandRevertStep s
  | .searchLibraryToBattlefield ids => ids.reverse.foldl searchBattlefieldRevertStep s
  | .trigger =>
    { s with stack := { objects := s.stack.objects.dropLast } }

/-- `GameActionResult::revert` from `game_action.rs`.  `CastSpell` and
`ActivateAbility` pop the stack only when its top has the matching kind
(`Vec::last` is the end of the list); `Sequence` reverts the per-step results
in reverse order. -/
def GameActionResult.revert (r : GameActionResult) (s : GameState) : GameState :=
  match r with
  | .passPriority => { s with priority := togglePriority s.priority }
  | .primitive pr => pr.revert s
  | .castSpell =>
    match s.stack.objects.getLast? with
    | some (.spell _) => { s with stack := { objects := s.stack.objects.dropLast } }
    | _ => s
  | .activateAbility _ =>
    match s.stack.objects.getLast? with
    | some (.activatedAbility _ _) =>
      { s with stack := { objects := s.stack.objects.dropLast } }
    | _ => s
  | .sequence results =>
    results.reverse.foldl (fun st pr => pr.revert st) s

-- ===========================================================================
-- Derived notions used by the specification claims
-- ===========================================================================

/-- The sum of the per-card counts of a library count map. -/
def sumCounts (f : Card → Nat) : Nat :=
  (allCards.map f).sum

/-- The `size == sum of all counts` invariant of `Library` (spec §3). -/
def Library.sizeInv (lib : Library) : Prop :=
  lib.size = sumCounts lib.cards

/-- Cards held in a hand. -/
def Hand.card_count (h : Hand) : Nat :=
  h.lands.length + h.spells.length

/-- Cards held in a graveyard. -/
def Graveyard.card_count (g : Graveyard) : Nat :=
  g.lands.length + g.spells.length

/-- Objects on a battlefield. -/
def Battlefield.card_count (b : Battlefield) : Nat :=
  b.lands.length + b.non_lands.length

/-- Total cards across Library + Hand + Battlefield + Graveyard of the active
player. -/
def GameState.totalCards (s : GameState) : Nat :=
  s.active_player.library.size + s.active_player.hand.card_count +
    s.active_player.battlefield.card_count + s.active_player.graveyard.card_count

/-- Well-formedness of the battlefield identity maps with respect to a bound:
all keys are below the bound, each map's keys are distinct, and the two maps
share no key. -/
def Battlefield.idsOk (b : Battlefield) (bound : Nat) : Prop :=
  (∀ k ∈ b.lands.keys, k < bound) ∧ (∀ k ∈ b.non_lands.keys, k < bound) ∧
    b.lands.keys.Nodup ∧ b.non_lands.keys.Nodup ∧
    (∀ k ∈ b.lands.keys, k ∉ b.non_lands.keys)

/-- The live-identity invariant of a game state: the active player's
battlefield ids are distinct and below the `next_id` counter. -/
def GameState.idsOk (s : GameState) : Prop :=
  s.active_player.battlefield.idsOk s.next_id

/-- A single `Library` operation, for stating the conservation claim over all
sequences of draws and insertions. -/
inductive LibOp where
  | draw
  | add (c : Card)

/-- Run one library operation. -/
def LibOp.applyOp : LibOp → Library → Library
  | .draw, lib => lib.draw_random_card.2
  | .add c, lib => lib.add_card c

/-- Run a sequence of library operations. -/
def runLibOps : List LibOp → Library → Library
  | [], lib => lib
  | op :: rest, lib => runLibOps rest (op.applyOp lib)

/-- The sequence never increments a `u8` count that is already at its maximum
(each `add` finds its card's count below 255 at that moment). -/
def libOpsOk : List LibOp → Library → Prop
  | [], _ => True
  | op :: rest, lib =>
    (match op with
     | .draw => True
     | .add c => lib.cards c < 255) ∧ libOpsOk rest (op.applyOp lib)

-- ===========================================================================
-- Basic lemmas about `allCards` and the library
-- ===========================================================================

theorem count_allCards (c : Card) : allCards.count c = 1 := by
  revert c; decide

theorem mem_allCards (c : Card) : c ∈ allCards := by
  revert c; decide

theorem length_availableCards (f : Card → Nat) :
    (availableCards f).length = sumCounts f := by
  simp [availableCards, sumCounts, List.length_flatMap, Function.comp_def]

theorem pos_of_mem_availableCards {f : Card → Nat} {c : Card}
    (h : c ∈ availableCards f) : 0 < f c := by
  rcases List.mem_flatMap.mp h with ⟨a, _, hc⟩
  have hca := List.eq_of_mem_replicate hc
  subst hca
  have hne := List.ne_nil_of_mem hc
  have := List.length_pos.mpr hne
  simpa using this

theorem getD_mem {α : Type} (l : List α) (i : Nat) (d : α) (hd : d ∈ l) :
    l.getD i d ∈ l := by
  rcases Nat.lt_or_ge i l.length with h | h
  · rw [List.getD_eq_getElem l d h]
    exact List.getElem_mem h
  · rw [List.getD_eq_default l d h]
    exact hd

theorem sum_map_update_count_one {l : List Card} {c : Card} (f : Card → Nat)
    (v : Nat) (h : l.count c = 1) :
    (l.map (Function.update f c v)).sum + f c = (l.map f).sum + v := by
  induction l with
  | nil => simp at h
  | cons a l ih =>
    by_cases hac : a = c
    · subst hac
      rw [List.count_cons_self] at h
      have hl : l.count a = 0 := by omega
      have hmap : l.map (Function.update f a v) = l.map f := by
        apply List.map_congr_left
        intro x hx
        have hxa : x ≠ a := by
          intro e
          subst e
          have : 0 < l.count x := List.count_pos_iff.mpr hx
          omega
        exact Function.update_noteq hxa v f
      simp only [List.map_cons, List.sum_cons, hmap, Function.update_same]
      omega
    · have hl : l.count c = 1 := by
        rw [List.count_cons] at h
        simp only [beq_iff_eq, hac, if_false] at h
        omega
      have := ih hl
      simp only [List.map_cons, List.sum_cons,
        Function.update_noteq hac v f]
      omega

/-- Updating one card's count changes the total by the difference. -/
theorem sumCounts_update (f : Card → Nat) (c : Card) (v : Nat) :
    sumCounts (Function.update f c v) + f c = sumCounts f + v :=
  sum_map_update_count_one f v (count_allCards c)

/-- What `draw_random_card` does on a non-empty, invariant-satisfying library:
some card with positive count is drawn, its count and the size drop by one,
and the rng cursor advances. -/
theorem draw_random_card_spec (lib : Library) (h0 : lib.size ≠ 0)
    (hinv : lib.sizeInv) :
    ∃ c, 0 < lib.cards c ∧
      lib.draw_random_card =
        (some c,
          { cards := Function.update lib.cards c (lib.cards c - 1)
            size := lib.size - 1
            rng := ⟨lib.rng.seq, lib.rng.idx + 1⟩ }) := by
  have hne : availableCards lib.cards ≠ [] := by
    intro he
    have := length_availableCards lib.cards
    rw [he] at this
    simp only [List.length_nil] at this
    rw [Library.sizeInv] at hinv
    omega
  unfold Library.draw_random_card
  rw [if_neg h0]
  rcases hl : availableCards lib.cards with _ | ⟨a, rest⟩
  · exact absurd hl hne
  · refine ⟨(a :: rest).getD (lib.rng.gen_range (a :: rest).length).1 a, ?_, rfl⟩
    apply pos_of_mem_availableCards (f := lib.cards)
    rw [hl]
    exact getD_mem _ _ _ (List.mem_cons_self a rest)

/-- Drawing preserves the size invariant. -/
theorem draw_sizeInv (lib : Library) (hinv : lib.sizeInv) :
    lib.draw_random_card.2.sizeInv := by
  by_cases h0 : lib.size = 0
  · unfold Library.draw_random_card
    rw [if_pos h0]
    exact hinv
  · rcases draw_random_card_spec lib h0 hinv with ⟨c, hc, hdraw⟩
    rw [hdraw]
    rw [Library.sizeInv] at hinv ⊢
    simp only
    have := sumCounts_update lib.cards c (lib.cards c - 1)
    omega

/-- Adding a card preserves the size invariant provided its `u8` count does
not overflow. -/
theorem add_card_sizeInv (lib : Library) (c : Card) (hinv : lib.sizeInv)
    (hc : lib.cards c < 255) : (lib.add_card c).sizeInv := by
  rw [Library.sizeInv] at hinv ⊢
  unfold Library.add_card
  simp only
  rw [Nat.mod_eq_of_lt (by omega)]
  have := sumCounts_update lib.cards c (lib.cards c + 1)
  omega

/-- The size invariant is preserved by every well-behaved sequence of library
operations. -/
theorem runLibOps_sizeInv (ops : List LibOp) (lib : Library)
    (hok : libOpsOk ops lib) (hinv : lib.sizeInv) :
    (runLibOps ops lib).sizeInv := by
  induction ops generalizing lib with
  | nil => exact hinv
  | cons op rest ih =>
    rcases hok with ⟨hop, hrest⟩
    refine ih (op.applyOp lib) hrest ?_
    cases op with
    | draw => exact draw_sizeInv lib hinv
    | add c => exact add_card_sizeInv lib c hinv hop

-- ===========================================================================
-- Frame lemmas: fields untouched by the primitive engine
-- ===========================================================================

/-- The fields no primitive action may touch: the non-active player, the
priority flag, and the active player's life total and mana pool. -/
def framePreserved (s t : GameState) : Prop :=
  t.non_active_player = s.non_active_player ∧ t.priority = s.priority ∧
    t.active_player.life_total = s.active_player.life_total ∧
    t.active_player.mana_pool = s.active_player.mana_pool

/-- Frame facts for an apply step: untouched fields plus a non-decreasing id
counter. -/
def frameA (s t : GameState) : Prop :=
  framePreserved s t ∧ s.next_id ≤ t.next_id

/-- Frame facts for a revert step: untouched fields plus an unchanged id
counter. -/
def frameR (s t : GameState) : Prop :=
  framePreserved s t ∧ t.next_id = s.next_id

theorem frameA_refl (s : GameState) : frameA s s :=
  ⟨⟨rfl, rfl, rfl, rfl⟩, Nat.le_refl _⟩

theorem frameA_trans {s t u : GameState} (h1 : frameA s t) (h2 : frameA t u) :
    frameA s u :=
  ⟨⟨h2.1.1.trans h1.1.1, h2.1.2.1.trans h1.1.2.1, h2.1.2.2.1.trans h1.1.2.2.1,
    h2.1.2.2.2.trans h1.1.2.2.2⟩, h1.2.trans h2.2⟩

theorem frameR_refl (s : GameState) : frameR s s :=
  ⟨⟨rfl, rfl, rfl, rfl⟩, rfl⟩

theorem frameR_trans {s t u : GameState} (h1 : frameR s t) (h2 : frameR t u) :
    frameR s u :=
  ⟨⟨h2.1.1.trans h1.1.1, h2.1.2.1.trans h1.1.2.1, h2.1.2.2.1.trans h1.1.2.2.1,
    h2.1.2.2.2.trans h1.1.2.2.2⟩, h2.2.trans h1.2⟩

theorem drawStep_frameA (s : GameState) : frameA s (drawStep s).2 := by
  unfold drawStep
  split <;> (try split) <;> simp_all [frameA, framePreserved]

theorem drawLoop_frameA (n : Nat) : ∀ s : GameState, frameA s (drawLoop n s).2 := by
  induction n with
  | zero => intro s; exact frameA_refl s
  | succ n ih =>
    intro s
    have hstep := drawStep_frameA s
    unfold drawLoop
    rcases h : drawStep s with ⟨o, s1⟩
    rw [h] at hstep
    cases o with
    | none => exact frameA_trans hstep (ih s1)
    | some c => exact frameA_trans hstep (ih s1)

theorem millStep_frameA (s : GameState) : frameA s (millStep s).2 := by
  unfold millStep
  split <;> (try split) <;> simp_all [frameA, framePreserved]

theorem millLoop_frameA (n : Nat) : ∀ s : GameState, frameA s (millLoop n s).2 := by
  induction n with
  | zero => intro s; exact frameA_refl s
  | succ n ih =>
    intro s
    have hstep := millStep_frameA s
    unfold millLoop
    rcases h : millStep s with ⟨o, s1⟩
    rw [h] at hstep
    cases o with
    | none => exact frameA_trans hstep (ih s1)
    | some c => exact frameA_trans hstep (ih s1)

theorem searchToHandStep_frameA (s : GameState) (c : Card) :
    frameA s (searchToHandStep s c) := by
  unfold searchToHandStep
  split <;> simp_all [frameA, framePreserved]

theorem searchToHandLoop_frameA (cs : List Card) :
    ∀ s : GameState, frameA s (searchToHandLoop cs s) := by
  induction cs with
  | nil => intro s; exact frameA_refl s
  | cons c cs ih =>
    intro s
    exact frameA_trans (searchToHandStep_frameA s c) (ih (searchToHandStep s c))

theorem searchToBattlefieldStep_frameA (s : GameState) (o : GameObject Card) :
    frameA s (searchToBattlefieldStep s o).2 := by
  unfold searchToBattlefieldStep
  split <;> simp_all [frameA, framePreserved, GameState.next_game_object_id]

theorem searchToBattlefieldLoop_frameA (os : List (GameObject Card)) :
    ∀ s : GameState, frameA s (searchToBattlefieldLoop os s).2 := by
  induction os with
  | nil => intro s; exact frameA_refl s
  | cons o os ih =>
    intro s
    have hstep := searchToBattlefieldStep_frameA s o
    unfold searchToBattlefieldLoop
    rcases h : searchToBattlefieldStep s o with ⟨oid, s1⟩
    rw [h] at hstep
    cases oid with
    | none => exact frameA_trans hstep (ih s1)
    | some id => exact frameA_trans hstep (ih s1)

theorem primApply_frameA (a : PrimitiveGameAction) (s : GameState) :
    frameA s (a.apply s).2 := by
  cases a with
  | drawCards n => exact drawLoop_frameA n s
  | millCards n => exact millLoop_frameA n s
  | playLand l t =>
    simp [PrimitiveGameAction.apply, frameA, framePreserved,
      GameState.next_game_object_id]
  | increaseLandPlays n =>
    simp [PrimitiveGameAction.apply, frameA, framePreserved]
  | searchLibraryToHand cs => exact searchToHandLoop_frameA cs s
  | searchLibraryToBattlefield os => exact searchToBattlefieldLoop_frameA os s
  | trigger t => simp [PrimitiveGameAction.apply, frameA, framePreserved]

theorem sequenceApplyLoop_frameA (as_ : List PrimitiveGameAction) :
    ∀ s : GameState, frameA s (sequenceApplyLoop as_ s).2 := by
  induction as_ with
  | nil => intro s; exact frameA_refl s
  | cons a as_ ih =>
    intro s
    exact frameA_trans (primApply_frameA a s) (ih (a.apply s).2)

theorem drawRevertAdds_frameR (cards : List Card) :
    ∀ s : GameState, frameR s (drawRevertAdds cards s) := by
  induction cards with
  | nil => intro s; exact frameR_refl s
  | cons c cs ih =>
    intro s
    unfold drawRevertAdds
    rw [List.foldl_cons]
    refine frameR_trans ?_ (ih _)
    simp [frameR, framePreserved]

theorem drawRevert_frameR (cards : List Card) (s : GameState) :
    frameR s (drawRevert cards s) := by
  refine frameR_trans (drawRevertAdds_frameR cards s) ?_
  simp [drawRevert, frameR, framePreserved]

theorem millRevertStep_frameR (s : GameState) (c : Card) :
    frameR s (millRevertStep s c) := by
  unfold millRevertStep
  split <;> simp_all [frameR, framePreserved]

theorem searchHandRevertStep_frameR (s : GameState) (c : Card) :
    frameR s (searchHandRevertStep s c) := by
  unfold searchHandRevertStep
  split <;> simp_all [frameR, framePreserved]

theorem searchBattlefieldRevertStep_frameR (s : GameState) (id : GameObjectId) :
    frameR s (searchBattlefieldRevertStep s id) := by
  unfold searchBattlefieldRevertStep
  split <;> (try split) <;> simp_all [frameR, framePreserved]

theorem foldl_frameR {α : Type} (step : GameState → α → GameState)
    (hstep : ∀ s a, frameR s (step s a)) (l : List α) :
    ∀ s : GameState, frameR s (l.foldl step s) := by
  induction l with
  | nil => intro s; exact frameR_refl s
  | cons a l ih =>
    intro s
    rw [List.foldl_cons]
    exact frameR_trans (hstep s a) (ih (step s a))

theorem primRevert_frameR (r : PrimitiveGameActionResult) (s : GameState) :
    frameR s (r.revert s) := by
  cases r with
  | drawCards cards => exact drawRevert_frameR cards s
  | millCards cards =>
    exact foldl_frameR millRevertStep millRevertStep_frameR cards.reverse s
  | playLand id => simp [PrimitiveGameActionResult.revert, frameR, framePreserved]
  | increaseLandPlays n =>
    simp [PrimitiveGameActionResult.revert, frameR, framePreserved]
  | searchLibraryToHand cards =>
    exact foldl_frameR searchHandRevertStep searchHandRevertStep_frameR
      cards.reverse s
  | searchLibraryToBattlefield ids =>
    exact foldl_frameR searchBattlefieldRevertStep
      searchBattlefieldRevertStep_frameR ids.reverse s
  | trigger => simp [PrimitiveGameActionResult.revert, frameR, framePreserved]

-- ===========================================================================
-- Concrete states used by witnesses and counterexamples
-- ===========================================================================

/-- An empty library with the all-zeros rng stream. -/
def emptyLibrary : Library :=
  { cards := fun _ => 0, size := 0, rng := ⟨fun _ => 0, 0⟩ }

/-- A player with empty zones. -/
def basePlayer : Player :=
  { life_total := 20
    library := emptyLibrary
    hand := ⟨[], []⟩
    battlefield := ⟨[], [], 0⟩
    graveyard := ⟨[], []⟩
    mana_pool := ⟨0, 0, 0, 0, 0, 0⟩ }

/-- A minimal game state. -/
def baseState : GameState :=
  { active_player := basePlayer
    non_active_player := none
    stack := ⟨[]⟩
    priority := .active
    next_id := 0 }

/-- A game state whose stack top is a `Trigger` object. -/
def triggerTopState : GameState :=
  { baseState with
    stack := ⟨[StackObject.trigger (Trigger.enters (Card.land Land.forest))]⟩ }

-- ===========================================================================
-- C9 : frame effect of the primitive engine
-- ===========================================================================

/-- C9: for every primitive game action, both `apply` and `revert` leave
`non_active_player`, `priority`, `active_player.life_total` and
`active_player.mana_pool` unchanged — primitives mutate only the active
player's zones, the stack and the id counter. -/
theorem C9_primitive_frame :
    (∀ (a : PrimitiveGameAction) (s : GameState),
      framePreserved s (a.apply s).2) ∧
    (∀ (r : PrimitiveGameActionResult) (s : GameState),
      framePreserved s (r.revert s)) :=
  ⟨fun a s => (primApply_frameA a s).1, fun r s => (primRevert_frameR r s).1⟩

-- ===========================================================================
-- C10 : Trigger revert pops unconditionally and tolerates an empty stack
-- ===========================================================================

/-- C10: reverting a `Trigger` result pops the last stack object whatever its
kind (no defensive check), and against an empty stack it is a silent no-op
that leaves the state unchanged. -/
theorem C10_trigger_revert :
    (∀ s : GameState,
      PrimitiveGameActionResult.trigger.revert s =
        { s with stack := { objects := s.stack.objects.dropLast } }) ∧
    (∀ s : GameState, s.stack.objects = [] →
      PrimitiveGameActionResult.trigger.revert s = s) := by
  constructor
  · intro s
    rfl
  · intro s h
    have h2 : s.stack.objects.dropLast = s.stack.objects := by
      rw [h]
      rfl
    show { s with stack := { objects := s.stack.objects.dropLast } } = s
    rw [h2]

/-- C10 witness: on the concrete empty-stack state, reverting a `Trigger`
result changes nothing. -/
theorem C10_witness :
    baseState.stack.objects = [] ∧
      PrimitiveGameActionResult.trigger.revert baseState = baseState :=
  ⟨rfl, C10_trigger_revert.2 baseState rfl⟩

-- ===========================================================================
-- C3 : mismatched CastSpell / ActivateAbility revert
-- ===========================================================================

/-- C3 counterexample: reverting a `CastSpell` result against a state whose
stack top is a `Trigger` object leaves the state entirely unchanged — the
mismatch is silently ignored, and no fatal internal-consistency fault exists
in the code. -/
theorem C3_counterexample :
    GameActionResult.castSpell.revert triggerTopState = triggerTopState := rfl

/-- C3 amended: reverting a `CastSpell` result when the stack top is not a
`Spell` object (or an `ActivateAbility` result when the top is not an
`ActivatedAbility`) does not pop the wrong-kind object, but it does not fault
either: it is a silent no-op that returns the state unchanged. -/
theorem C3_mismatch_silent :
    (∀ s : GameState,
      (∀ sp : Spell, s.stack.objects.getLast? ≠ some (.spell sp)) →
      GameActionResult.castSpell.revert s = s) ∧
    (∀ (s : GameState) (src : GameObjectId),
      (∀ (a : GameObjectId) (b : Option Target),
        s.stack.objects.getLast? ≠ some (.activatedAbility a b)) →
      (GameActionResult.activateAbility src).revert s = s) := by
  constructor
  · intro s h
    unfold GameActionResult.revert
    rcases hl : s.stack.objects.getLast? with _ | obj
    · rfl
    · cases obj with
      | spell sp => exact absurd hl (h sp)
      | trigger t => rfl
      | activatedAbility a b => rfl
  · intro s src h
    unfold GameActionResult.revert
    rcases hl : s.stack.objects.getLast? with _ | obj
    · rfl
    · cases obj with
      | spell sp => rfl
      | trigger t => rfl
      | activatedAbility a b => exact absurd hl (h a b)

/-- C3 witness: the amended statement applied to the concrete trigger-topped
state. -/
theorem C3_witness :
    (∀ sp : Spell,
      triggerTopState.stack.objects.getLast? ≠ some (.spell sp)) ∧
      GameActionResult.castSpell.revert triggerTopState = triggerTopState :=
  ⟨by decide, C3_mismatch_silent.1 triggerTopState (by decide)⟩

-- ===========================================================================
-- C8 : delirium
-- ===========================================================================

theorem foldl_lor_init (i : Nat) (l : List Nat) :
    l.foldl (fun a b => a ||| b) i = i ||| l.foldl (fun a b => a ||| b) 0 := by
  induction l generalizing i with
  | nil => simp
  | cons x l ih =>
    rw [List.foldl_cons, List.foldl_cons, ih (i ||| x), ih (0 ||| x)]
    rw [Nat.zero_or, Nat.or_assoc]

theorem foldl_lor_append (l1 l2 : List Nat) :
    (l1 ++ l2).foldl (fun a b => a ||| b) 0 =
      l1.foldl (fun a b => a ||| b) 0 ||| l2.foldl (fun a b => a ||| b) 0 := by
  rw [List.foldl_append, foldl_lor_init]

theorem popCount_mono_of_testBit {a b : Nat}
    (h : ∀ i, a.testBit i = true → b.testBit i = true) :
    popCount a ≤ popCount b := by
  unfold popCount
  exact List.countP_mono_left (fun i _ hi => h i hi)

/-- Appending one card to either graveyard sub-sequence turns the type union
into the old union or-ed with the new card's type mask. -/
theorem typeUnion_append_land (gy : Graveyard) (l : Land) :
    Graveyard.typeUnion { gy with lands := gy.lands ++ [l] } =
      (gy.typeUnion ||| card_type (.land l)) := by
  unfold Graveyard.typeUnion Graveyard.iterCards
  simp only [List.map_append, List.map_cons, List.map_nil]
  rw [List.append_assoc]
  rw [foldl_lor_append, foldl_lor_append]
  rw [foldl_lor_append]
  simp only [List.foldl_cons, List.foldl_nil, Nat.zero_or]
  rw [Nat.or_assoc, Nat.or_comm (card_type (.land l)), ← Nat.or_assoc]

theorem typeUnion_append_spell (gy : Graveyard) (sp : Spell) :
    Graveyard.typeUnion { gy with spells := gy.spells ++ [sp] } =
      (gy.typeUnion ||| card_type (.spell sp)) := by
  unfold Graveyard.typeUnion Graveyard.iterCards
  simp only [List.map_append, List.map_cons, List.map_nil]
  rw [← List.append_assoc]
  rw [foldl_lor_append, foldl_lor_append]
  simp only [List.foldl_cons, List.foldl_nil, Nat.zero_or]

/-- C8: `has_delirium` is true iff the bitwise union of `card_type` over all
graveyard cards (lands then spells) has at least 4 set bits, and appending a
card to either sub-sequence can only turn the flag from false to true, never
from true to false. -/
theorem C8_delirium :
    (∀ gy : Graveyard, gy.has_delirium = true ↔ 4 ≤ popCount gy.typeUnion) ∧
    (∀ (gy : Graveyard) (l : Land), gy.has_delirium = true →
      Graveyard.has_delirium { gy with lands := gy.lands ++ [l] } = true) ∧
    (∀ (gy : Graveyard) (sp : Spell), gy.has_delirium = true →
      Graveyard.has_delirium { gy with spells := gy.spells ++ [sp] } = true) := by
  have hiff : ∀ gy : Graveyard, gy.has_delirium = true ↔ 4 ≤ popCount gy.typeUnion := by
    intro gy
    unfold Graveyard.has_delirium
    exact decide_eq_true_iff
  refine ⟨hiff, ?_, ?_⟩
  · intro gy l h
    rw [hiff] at h ⊢
    rw [typeUnion_append_land]
    refine h.trans (popCount_mono_of_testBit ?_)
    intro i hi
    rw [Nat.testBit_or, hi, Bool.true_or]
  · intro gy sp h
    rw [hiff] at h ⊢
    rw [typeUnion_append_spell]
    refine h.trans (popCount_mono_of_testBit ?_)
    intro i hi
    rw [Nat.testBit_or, hi, Bool.true_or]

/-- A graveyard with four distinct card-type bits (Land+Enchantment from
Urza's Saga, Artifact, Creature). -/
def deliriumGraveyard : Graveyard :=
  { spells := [.permanent .amuletOfVigor, .permanent .primevalTitan]
    lands := [.urzasSaga] }

/-- C8 witness: the concrete delirious graveyard stays delirious after a
`Forest` is appended. -/
theorem C8_witness :
    deliriumGraveyard.has_delirium = true ∧
      Graveyard.has_delirium
        { deliriumGraveyard with lands := deliriumGraveyard.lands ++ [.forest] } = true :=
  ⟨by decide, C8_delirium.2.1 deliriumGraveyard .forest (by decide)⟩

-- ===========================================================================
-- C4 : DrawCards
-- ===========================================================================

/-- The land entries of a card list, in order. -/
def landsOf : List Card → List Land
  | [] => []
  | .land l :: cs => l :: landsOf cs
  | .spell _ :: cs => landsOf cs

/-- The spell entries of a card list, in order. -/
def spellsOf : List Card → List Spell
  | [] => []
  | .land _ :: cs => spellsOf cs
  | .spell sp :: cs => sp :: spellsOf cs

theorem landsOf_cons (c : Card) (cs : List Card) :
    landsOf (c :: cs) = landsOf [c] ++ landsOf cs := by
  cases c <;> rfl

theorem spellsOf_cons (c : Card) (cs : List Card) :
    spellsOf (c :: cs) = spellsOf [c] ++ spellsOf cs := by
  cases c <;> rfl

theorem length_landsOf (cs : List Card) :
    (landsOf cs).length = cs.countP Card.isLand := by
  induction cs with
  | nil => rfl
  | cons c cs ih =>
    cases c <;> simp [landsOf, List.countP_cons, Card.isLand, ih]

theorem length_spellsOf (cs : List Card) :
    (spellsOf cs).length = cs.countP (fun c => ! c.isLand) := by
  induction cs with
  | nil => rfl
  | cons c cs ih =>
    cases c <;> simp [spellsOf, List.countP_cons, Card.isLand, ih]

theorem draw_random_card_empty (lib : Library) (h : lib.size = 0) :
    lib.draw_random_card = (none, lib) := by
  unfold Library.draw_random_card
  rw [if_pos h]

theorem drawStep_none (s : GameState)
    (h0 : s.active_player.library.size = 0) : drawStep s = (none, s) := by
  unfold drawStep
  rw [draw_random_card_empty _ h0]

/-- On a non-empty invariant-satisfying library, a draw step draws some card,
appends it to the matching hand sub-sequence, and shrinks the library by one. -/
theorem drawStep_some (s : GameState) (h0 : s.active_player.library.size ≠ 0)
    (hinv : s.active_player.library.sizeInv) :
    ∃ c : Card,
      (drawStep s).1 = some c ∧
      (drawStep s).2.active_player.hand.lands =
        s.active_player.hand.lands ++ landsOf [c] ∧
      (drawStep s).2.active_player.hand.spells =
        s.active_player.hand.spells ++ spellsOf [c] ∧
      (drawStep s).2.active_player.library.size + 1 =
        s.active_player.library.size ∧
      (drawStep s).2.active_player.library.sizeInv := by
  rcases draw_random_card_spec _ h0 hinv with ⟨c, hc, hdraw⟩
  have hinv2 := draw_sizeInv s.active_player.library hinv
  rw [hdraw] at hinv2
  refine ⟨c, ?_⟩
  unfold drawStep
  rw [hdraw]
  cases c with
  | land l =>
    refine ⟨rfl, rfl, ?_, ?_, hinv2⟩
    · simp [spellsOf]
    · simp only
      omega
  | spell sp =>
    refine ⟨rfl, ?_, rfl, ?_, hinv2⟩
    · simp [landsOf]
    · simp only
      omega

/-- The draw loop leaves the battlefield, graveyard, stack and id counter
untouched. -/
theorem drawLoop_untouched (n : Nat) : ∀ s : GameState,
    (drawLoop n s).2.active_player.battlefield = s.active_player.battlefield ∧
    (drawLoop n s).2.active_player.graveyard = s.active_player.graveyard ∧
    (drawLoop n s).2.stack = s.stack ∧
    (drawLoop n s).2.next_id = s.next_id := by
  induction n with
  | zero => intro s; exact ⟨rfl, rfl, rfl, rfl⟩
  | succ n ih =>
    intro s
    have hstep : (drawStep s).2.active_player.battlefield = s.active_player.battlefield ∧
        (drawStep s).2.active_player.graveyard = s.active_player.graveyard ∧
        (drawStep s).2.stack = s.stack ∧
        (drawStep s).2.next_id = s.next_id := by
      unfold drawStep
      split <;> (try split) <;> simp_all
    unfold drawLoop
    rcases h : drawStep s with ⟨o, s1⟩
    rw [h] at hstep
    rcases ih s1 with ⟨h1, h2, h3, h4⟩
    cases o with
    | none =>
      exact ⟨h1.trans hstep.1, h2.trans hstep.2.1, h3.trans hstep.2.2.1,
        h4.trans hstep.2.2.2⟩
    | some c =>
      exact ⟨h1.trans hstep.1, h2.trans hstep.2.1, h3.trans hstep.2.2.1,
        h4.trans hstep.2.2.2⟩

theorem drawLoop_succ_none {n : Nat} {s s1 : GameState}
    (h : drawStep s = (none, s1)) : drawLoop (n + 1) s = drawLoop n s1 := by
  conv_lhs => rw [drawLoop]
  rw [h]

theorem drawLoop_succ_some {n : Nat} {s s1 : GameState} {c : Card}
    (h : drawStep s = (some c, s1)) :
    drawLoop (n + 1) s = (c :: (drawLoop n s1).1, (drawLoop n s1).2) := by
  conv_lhs => rw [drawLoop]
  rw [h]

/-- Full characterisation of the draw loop on an invariant-satisfying
library: the number drawn is `min n size`, each drawn card is appended to the
matching hand sub-sequence in order, and the size drops by the number drawn. -/
theorem drawLoop_spec (n : Nat) : ∀ s : GameState,
    s.active_player.library.sizeInv →
    (drawLoop n s).1.length = min n s.active_player.library.size ∧
    (drawLoop n s).2.active_player.hand.lands =
      s.active_player.hand.lands ++ landsOf (drawLoop n s).1 ∧
    (drawLoop n s).2.active_player.hand.spells =
      s.active_player.hand.spells ++ spellsOf (drawLoop n s).1 ∧
    (drawLoop n s).2.active_player.library.size + (drawLoop n s).1.length =
      s.active_player.library.size ∧
    (drawLoop n s).2.active_player.library.sizeInv := by
  induction n with
  | zero =>
    intro s hinv
    exact ⟨by simp [drawLoop], by simp [drawLoop, landsOf],
      by simp [drawLoop, spellsOf], rfl, hinv⟩
  | succ n ih =>
    intro s hinv
    by_cases h0 : s.active_player.library.size = 0
    · have hnone := drawStep_none s h0
      rw [drawLoop_succ_none hnone]
      rcases ih s hinv with ⟨ha, hb, hc, hd, he⟩
      exact ⟨by omega, hb, hc, hd, he⟩
    · rcases drawStep_some s h0 hinv with ⟨c, h1, h2, h3, h4, h5⟩
      have hstep : drawStep s = (some c, (drawStep s).2) := by rw [← h1]
      rw [drawLoop_succ_some hstep]
      rcases ih (drawStep s).2 h5 with ⟨ha, hb, hc, hd, he⟩
      refine ⟨?_, ?_, ?_, ?_, he⟩
      · show ((c :: (drawLoop n (drawStep s).2).1)).length =
          min (n + 1) s.active_player.library.size
        simp only [List.length_cons]
        omega
      · show (drawLoop n (drawStep s).2).2.active_player.hand.lands =
          s.active_player.hand.lands ++ landsOf (c :: (drawLoop n (drawStep s).2).1)
        rw [hb, h2, List.append_assoc, ← landsOf_cons]
      · show (drawLoop n (drawStep s).2).2.active_player.hand.spells =
          s.active_player.hand.spells ++ spellsOf (c :: (drawLoop n (drawStep s).2).1)
        rw [hc, h3, List.append_assoc, ← spellsOf_cons]
      · show (drawLoop n (drawStep s).2).2.active_player.library.size +
          ((c :: (drawLoop n (drawStep s).2).1)).length = s.active_player.library.size
        simp only [List.length_cons]
        omega

/-- C4: `DrawCards(n)` draws exactly `min n size` cards (at most `n`, fewer
exactly when the library runs out), appends each drawn card to the hand's
lands sub-sequence when it is a land and to the spells sub-sequence
otherwise, returns the ordered list actually drawn, and `draw_random_card`
on an empty (size 0) library returns `none` without faulting. -/
theorem C4_draw_cards :
    (∀ (n : Nat) (s : GameState), s.active_player.library.sizeInv →
      ∃ cs : List Card,
        ((PrimitiveGameAction.drawCards n).apply s).1 =
          .drawCards cs ∧
        cs.length = min n s.active_player.library.size ∧
        ((PrimitiveGameAction.drawCards n).apply s).2.active_player.hand.lands =
          s.active_player.hand.lands ++ landsOf cs ∧
        ((PrimitiveGameAction.drawCards n).apply s).2.active_player.hand.spells =
          s.active_player.hand.spells ++ spellsOf cs) ∧
    (∀ lib : Library, lib.size = 0 → lib.draw_random_card = (none, lib)) := by
  constructor
  · intro n s hinv
    rcases drawLoop_spec n s hinv with ⟨ha, hb, hc, _, _⟩
    exact ⟨(drawLoop n s).1, rfl, ha, hb, hc⟩
  · exact draw_random_card_empty

/-- A one-card library holding a single Forest. -/
def forestLibrary : Library :=
  { cards := fun c => if c = .land .forest then 1 else 0
    size := 1
    rng := ⟨fun _ => 0, 0⟩ }

/-- A game state whose active player has the one-Forest library. -/
def forestState : GameState :=
  { baseState with active_player := { basePlayer with library := forestLibrary } }

/-- C4 witness: the theorem applied to the concrete one-Forest library (with
`n = 2`) and to the concrete empty library. -/
theorem C4_witness :
    forestState.active_player.library.sizeInv ∧
      (∃ cs : List Card,
        ((PrimitiveGameAction.drawCards 2).apply forestState).1 =
          .drawCards cs ∧
        cs.length = min 2 forestState.active_player.library.size ∧
        ((PrimitiveGameAction.drawCards 2).apply forestState).2.active_player.hand.lands =
          forestState.active_player.hand.lands ++ landsOf cs ∧
        ((PrimitiveGameAction.drawCards 2).apply forestState).2.active_player.hand.spells =
          forestState.active_player.hand.spells ++ spellsOf cs) ∧
      emptyLibrary.draw_random_card = (none, emptyLibrary) :=
  ⟨show forestLibrary.size = sumCounts forestLibrary.cards by decide,
   C4_draw_cards.1 2 forestState
     (show forestLibrary.size = sumCounts forestLibrary.cards by decide),
   C4_draw_cards.2 emptyLibrary rfl⟩

-- ===========================================================================
-- C7 : no underflow on library counts, library size, land plays
-- ===========================================================================

/-- `draw_random_card` either returns `none` with the library unchanged, or
draws a card whose count is positive (from a library of positive size) and
decrements that count and the size exactly. -/
theorem draw_random_card_cases (lib : Library) :
    lib.draw_random_card = (none, lib) ∨
    ∃ c, 0 < lib.cards c ∧ 0 < lib.size ∧
      lib.draw_random_card =
        (some c,
          { cards := Function.update lib.cards c (lib.cards c - 1)
            size := lib.size - 1
            rng := ⟨lib.rng.seq, lib.rng.idx + 1⟩ }) := by
  by_cases h0 : lib.size = 0
  · exact Or.inl (draw_random_card_empty lib h0)
  · unfold Library.draw_random_card
    rw [if_neg h0]
    rcases hl : availableCards lib.cards with _ | ⟨a, rest⟩
    · exact Or.inl rfl
    · refine Or.inr
        ⟨(a :: rest).getD (lib.rng.gen_range (a :: rest).length).1 a, ?_,
          Nat.pos_of_ne_zero h0, rfl⟩
      apply pos_of_mem_availableCards (f := lib.cards)
      rw [hl]
      exact getD_mem _ _ _ (List.mem_cons_self a rest)

/-- C7: no subtraction on library card counts, library size, or the
remaining-land-plays counter underflows.  (1) A successful draw only
decrements a positive count and a positive size, exactly.  (2) Reverting
`IncreaseLandPlays` floors the counter at zero (saturating).  (3) Each
`SearchLibraryToHand` step floors the decremented count and size at zero.
(4) Each `SearchLibraryToBattlefield` step does the same. -/
theorem C7_no_underflow :
    (∀ (lib : Library) (c : Card), lib.draw_random_card.1 = some c →
      0 < lib.cards c ∧ 0 < lib.size ∧
      lib.draw_random_card.2.cards c = lib.cards c - 1 ∧
      lib.draw_random_card.2.size = lib.size - 1) ∧
    (∀ (s : GameState) (n : Nat),
      ((((PrimitiveGameActionResult.increaseLandPlays n).revert s).active_player.battlefield.land_plays : Int) =
        max ((s.active_player.battlefield.land_plays : Int) - (n : Int)) 0)) ∧
    (∀ (s : GameState) (c : Card),
      (((searchToHandStep s c).active_player.library.cards c : Int) =
        max ((s.active_player.library.cards c : Int) - 1) 0) ∧
      (((searchToHandStep s c).active_player.library.size : Int) =
        max ((s.active_player.library.size : Int) - 1) 0)) ∧
    (∀ (s : GameState) (o : GameObject Card),
      (((searchToBattlefieldStep s o).2.active_player.library.cards o.permanent : Int) =
        max ((s.active_player.library.cards o.permanent : Int) - 1) 0) ∧
      (((searchToBattlefieldStep s o).2.active_player.library.size : Int) =
        max ((s.active_player.library.size : Int) - 1) 0)) := by
  refine ⟨?_, ?_, ?_, ?_⟩
  · intro lib c h
    rcases draw_random_card_cases lib with hn | ⟨c', hpos, hsz, heq⟩
    · rw [hn] at h
      cases h
    · rw [heq] at h
      have hcc : c' = c := by simpa using h
      subst hcc
      rw [heq]
      exact ⟨hpos, hsz, Function.update_same _ _ _, rfl⟩
  · intro s n
    simp only [PrimitiveGameActionResult.revert]
    omega
  · intro s c
    cases c <;>
      simp only [searchToHandStep, Function.update_same] <;>
      constructor <;> omega
  · intro s o
    rcases o with ⟨cp, ts⟩
    rcases cp with l | sp
    · simp only [searchToBattlefieldStep, GameState.next_game_object_id,
        Function.update_same]
      constructor <;> omega
    · rcases sp with p | np <;>
        simp only [searchToBattlefieldStep, GameState.next_game_object_id,
          Function.update_same] <;>
        constructor <;> omega

/-- C7 witness: drawing from the concrete one-Forest library succeeds, so the
guarded-subtraction part applies with all its conclusions. -/
theorem C7_witness :
    forestLibrary.draw_random_card.1 = some (Card.land Land.forest) ∧
      (0 < forestLibrary.cards (Card.land Land.forest) ∧
       0 < forestLibrary.size ∧
       forestLibrary.draw_random_card.2.cards (Card.land Land.forest) =
         forestLibrary.cards (Card.land Land.forest) - 1 ∧
       forestLibrary.draw_random_card.2.size = forestLibrary.size - 1) :=
  ⟨by decide, C7_no_underflow.1 forestLibrary (Card.land Land.forest) (by decide)⟩

-- ===========================================================================
-- ObjMap and battlefield-identity lemmas
-- ===========================================================================

theorem ObjMap.filter_ne_of_not_mem_keys {A : Type} (m : ObjMap A)
    (k : GameObjectId) (h : k ∉ m.keys) :
    m.filter (fun p => p.1 ≠ k) = m := by
  apply List.filter_eq_self.mpr
  intro p hp
  have hpk : p.1 ∈ m.keys := List.mem_map_of_mem _ hp
  simp only [ne_eq, decide_not, Bool.not_eq_eq_eq_not, Bool.not_true,
    decide_eq_false_iff_not]
  intro he
  exact h (he ▸ hpk)

theorem ObjMap.length_insert_of_not_mem {A : Type} (m : ObjMap A)
    (k : GameObjectId) (v : GameObject A) (h : k ∉ m.keys) :
    (m.insert k v).length = m.length + 1 := by
  unfold ObjMap.insert
  rw [ObjMap.filter_ne_of_not_mem_keys m k h]
  simp

theorem ObjMap.keys_insert_of_not_mem {A : Type} (m : ObjMap A)
    (k : GameObjectId) (v : GameObject A) (h : k ∉ m.keys) :
    (m.insert k v).keys = k :: m.keys := by
  unfold ObjMap.insert ObjMap.keys
  rw [ObjMap.filter_ne_of_not_mem_keys m k h]
  rfl

theorem ObjMap.keys_filter_subset {A : Type} (m : ObjMap A)
    (p : GameObjectId × GameObject A → Bool) {k : GameObjectId}
    (h : k ∈ ObjMap.keys (m.filter p)) : k ∈ ObjMap.keys m := by
  unfold ObjMap.keys at h ⊢
  rcases List.mem_map.mp h with ⟨q, hq, hqe⟩
  exact hqe ▸ List.mem_map_of_mem _ (List.mem_of_mem_filter hq)

theorem ObjMap.keys_filter_sublist {A : Type} (m : ObjMap A)
    (p : GameObjectId × GameObject A → Bool) :
    (ObjMap.keys (m.filter p)).Sublist (ObjMap.keys m) :=
  (List.filter_sublist m).map _

/-- Bounds are monotone. -/
theorem Battlefield.idsOk_mono {b : Battlefield} {n m : Nat}
    (h : b.idsOk n) (hnm : n ≤ m) : b.idsOk m :=
  ⟨fun k hk => Nat.lt_of_lt_of_le (h.1 k hk) hnm,
   fun k hk => Nat.lt_of_lt_of_le (h.2.1 k hk) hnm,
   h.2.2.1, h.2.2.2.1, h.2.2.2.2⟩

/-- Inserting a fresh object under the current bound into the lands map keeps
the identity invariant at the incremented bound. -/
theorem Battlefield.idsOk_insert_lands {b : Battlefield} {n : Nat}
    (h : b.idsOk n) (v : GameObject Land) :
    Battlefield.idsOk
      { b with lands := b.lands.insert n v } (n + 1) := by
  rcases h with ⟨h1, h2, h3, h4, h5⟩
  have hfresh : n ∉ b.lands.keys := fun hk => Nat.lt_irrefl n (h1 n hk)
  refine ⟨?_, fun k hk => Nat.lt_succ_of_lt (h2 k hk), ?_, h4, ?_⟩
  · intro k hk
    rw [ObjMap.keys_insert_of_not_mem _ _ _ hfresh] at hk
    rcases List.mem_cons.mp hk with he | hm
    · exact he ▸ Nat.lt_succ_self n
    · exact Nat.lt_succ_of_lt (h1 k hm)
  · rw [ObjMap.keys_insert_of_not_mem _ _ _ hfresh]
    exact List.nodup_cons.mpr ⟨hfresh, h3⟩
  · intro k hk
    rw [ObjMap.keys_insert_of_not_mem _ _ _ hfresh] at hk
    rcases List.mem_cons.mp hk with he | hm
    · subst he
      intro hmem
      exact Nat.lt_irrefl k (h2 k hmem)
    · exact h5 k hm

/-- Inserting a fresh object into the non-lands map keeps the invariant. -/
theorem Battlefield.idsOk_insert_non_lands {b : Battlefield} {n : Nat}
    (h : b.idsOk n) (v : GameObject Permanent) :
    Battlefield.idsOk
      { b with non_lands := b.non_lands.insert n v } (n + 1) := by
  rcases h with ⟨h1, h2, h3, h4, h5⟩
  have hfresh : n ∉ b.non_lands.keys := fun hk => Nat.lt_irrefl n (h2 n hk)
  refine ⟨fun k hk => Nat.lt_succ_of_lt (h1 k hk), ?_, h3, ?_, ?_⟩
  · intro k hk
    rw [ObjMap.keys_insert_of_not_mem _ _ _ hfresh] at hk
    rcases List.mem_cons.mp hk with he | hm
    · exact he ▸ Nat.lt_succ_self n
    · exact Nat.lt_succ_of_lt (h2 k hm)
  · rw [ObjMap.keys_insert_of_not_mem _ _ _ hfresh]
    exact List.nodup_cons.mpr ⟨hfresh, h4⟩
  · intro k hk hmem
    rw [ObjMap.keys_insert_of_not_mem _ _ _ hfresh] at hmem
    rcases List.mem_cons.mp hmem with he | hm
    · subst he
      exact Nat.lt_irrefl k (h1 k hk)
    · exact h5 k hk hm

/-- Filtering either map (the removal half of `HashMap::remove`) preserves
the identity invariant. -/
theorem Battlefield.idsOk_filter {b : Battlefield} {n : Nat} (h : b.idsOk n)
    (p : GameObjectId × GameObject Land → Bool)
    (q : GameObjectId × GameObject Permanent → Bool) :
    Battlefield.idsOk
      { b with lands := b.lands.filter p, non_lands := b.non_lands.filter q } n := by
  rcases h with ⟨h1, h2, h3, h4, h5⟩
  refine ⟨fun k hk => h1 k (ObjMap.keys_filter_subset _ _ hk),
    fun k hk => h2 k (ObjMap.keys_filter_subset _ _ hk),
    h3.sublist (ObjMap.keys_filter_sublist _ _),
    h4.sublist (ObjMap.keys_filter_sublist _ _), ?_⟩
  intro k hk hmem
  exact h5 k (ObjMap.keys_filter_subset _ _ hk) (ObjMap.keys_filter_subset _ _ hmem)

-- ===========================================================================
-- C5 : SearchLibraryToBattlefield
-- ===========================================================================

/-- Whether a card is a non-permanent spell (cannot enter the battlefield). -/
def Card.isNonPermanentSpell : Card → Bool
  | .spell (.nonPermanent _) => true
  | _ => false

/-- Whether a card is a permanent spell. -/
def Card.isPermanentSpell : Card → Bool
  | .spell (.permanent _) => true
  | _ => false

/-- Case analysis of one `SearchLibraryToBattlefield` step: a non-permanent
entry is skipped (no id, battlefield and counter untouched); a land entry and
a permanent-spell entry mint the current counter value as id and insert into
the matching map. -/
theorem s2bStep_spec (s : GameState) (o : GameObject Card) :
    (o.permanent.isNonPermanentSpell = true →
      (searchToBattlefieldStep s o).1 = none ∧
      (searchToBattlefieldStep s o).2.active_player.battlefield =
        s.active_player.battlefield ∧
      (searchToBattlefieldStep s o).2.next_id = s.next_id) ∧
    (o.permanent.isLand = true →
      ∃ v : GameObject Land,
        (searchToBattlefieldStep s o).1 = some s.next_id ∧
        (searchToBattlefieldStep s o).2.active_player.battlefield =
          { s.active_player.battlefield with
            lands := s.active_player.battlefield.lands.insert s.next_id v } ∧
        (searchToBattlefieldStep s o).2.next_id = s.next_id + 1) ∧
    (o.permanent.isPermanentSpell = true →
      ∃ v : GameObject Permanent,
        (searchToBattlefieldStep s o).1 = some s.next_id ∧
        (searchToBattlefieldStep s o).2.active_player.battlefield =
          { s.active_player.battlefield with
            non_lands := s.active_player.battlefield.non_lands.insert s.next_id v } ∧
        (searchToBattlefieldStep s o).2.next_id = s.next_id + 1) := by
  rcases o with ⟨cp, ts⟩
  rcases cp with l | sp
  · exact ⟨fun h => by simp [Card.isNonPermanentSpell] at h,
      fun _ => ⟨⟨l, ts⟩, rfl, rfl, rfl⟩,
      fun h => by simp [Card.isPermanentSpell] at h⟩
  · rcases sp with p | np
    · exact ⟨fun h => by simp [Card.isNonPermanentSpell] at h,
        fun h => by simp [Card.isLand] at h,
        fun _ => ⟨⟨p, ts⟩, rfl, rfl, rfl⟩⟩
    · exact ⟨fun _ => ⟨rfl, rfl, rfl⟩,
        fun h => by simp [Card.isLand] at h,
        fun h => by simp [Card.isPermanentSpell] at h⟩

theorem countP_cons_true {α : Type} (p : α → Bool) (a : α) (l : List α)
    (h : p a = true) : (a :: l).countP p = l.countP p + 1 := by
  rw [List.countP_cons, h]
  simp

theorem countP_cons_false {α : Type} (p : α → Bool) (a : α) (l : List α)
    (h : p a = false) : (a :: l).countP p = l.countP p := by
  rw [List.countP_cons, h]
  simp

theorem s2bLoop_cons_none {os : List (GameObject Card)} {s s1 : GameState}
    {o : GameObject Card} (h : searchToBattlefieldStep s o = (none, s1)) :
    searchToBattlefieldLoop (o :: os) s = searchToBattlefieldLoop os s1 := by
  conv_lhs => rw [searchToBattlefieldLoop]
  rw [h]

theorem s2bLoop_cons_some {os : List (GameObject Card)} {s s1 : GameState}
    {o : GameObject Card} {id : GameObjectId}
    (h : searchToBattlefieldStep s o = (some id, s1)) :
    searchToBattlefieldLoop (o :: os) s =
      (id :: (searchToBattlefieldLoop os s1).1,
        (searchToBattlefieldLoop os s1).2) := by
  conv_lhs => rw [searchToBattlefieldLoop]
  rw [h]

/-- The search-to-battlefield loop, on an id-invariant state: one minted id
per non-skipped entry, the battlefield maps grow by exactly the number of
land / permanent-spell entries, and the id invariant is maintained. -/
theorem s2bLoop_spec (objs : List (GameObject Card)) :
    ∀ s : GameState, s.idsOk →
    (searchToBattlefieldLoop objs s).1.length =
      objs.countP (fun o => ! o.permanent.isNonPermanentSpell) ∧
    (searchToBattlefieldLoop objs s).2.active_player.battlefield.lands.length =
      s.active_player.battlefield.lands.length +
        objs.countP (fun o => o.permanent.isLand) ∧
    (searchToBattlefieldLoop objs s).2.active_player.battlefield.non_lands.length =
      s.active_player.battlefield.non_lands.length +
        objs.countP (fun o => o.permanent.isPermanentSpell) ∧
    (searchToBattlefieldLoop objs s).2.idsOk := by
  induction objs with
  | nil =>
    intro s hids
    exact ⟨rfl, rfl, rfl, hids⟩
  | cons o os ih =>
    intro s hids
    rcases s2bStep_spec s o with ⟨hnp, hland, hperm⟩
    rcases hcp : o.permanent with l | sp
    · rcases hland (by rw [hcp]; rfl) with ⟨v, h1, h2, h3⟩
      have hstep : searchToBattlefieldStep s o =
          (some s.next_id, (searchToBattlefieldStep s o).2) := by rw [← h1]
      rw [s2bLoop_cons_some hstep]
      have hfresh : s.next_id ∉ s.active_player.battlefield.lands.keys :=
        fun hk => Nat.lt_irrefl _ (hids.1 _ hk)
      have hids1 : (searchToBattlefieldStep s o).2.idsOk := by
        unfold GameState.idsOk
        rw [h3, h2]
        exact Battlefield.idsOk_insert_lands hids v
      rcases ih _ hids1 with ⟨ia, ib, ic, id_⟩
      have hlen : (searchToBattlefieldStep s o).2.active_player.battlefield.lands.length =
          s.active_player.battlefield.lands.length + 1 := by
        rw [h2]
        exact ObjMap.length_insert_of_not_mem _ _ _ hfresh
      have hnl : (searchToBattlefieldStep s o).2.active_player.battlefield.non_lands =
          s.active_player.battlefield.non_lands := by rw [h2]
      refine ⟨?_, ?_, ?_, id_⟩
      · rw [List.length_cons, ia,
          countP_cons_true _ o os (by simp [hcp, Card.isNonPermanentSpell])]
      · rw [ib, hlen, countP_cons_true _ o os (by simp [hcp, Card.isLand])]
        omega
      · rw [ic, hnl, countP_cons_false _ o os (by simp [hcp, Card.isPermanentSpell])]
    · rcases sp with p | np
      · rcases hperm (by rw [hcp]; rfl) with ⟨v, h1, h2, h3⟩
        have hstep : searchToBattlefieldStep s o =
            (some s.next_id, (searchToBattlefieldStep s o).2) := by rw [← h1]
        rw [s2bLoop_cons_some hstep]
        have hfresh : s.next_id ∉ s.active_player.battlefield.non_lands.keys :=
          fun hk => Nat.lt_irrefl _ (hids.2.1 _ hk)
        have hids1 : (searchToBattlefieldStep s o).2.idsOk := by
          unfold GameState.idsOk
          rw [h3, h2]
          exact Battlefield.idsOk_insert_non_lands hids v
        rcases ih _ hids1 with ⟨ia, ib, ic, id_⟩
        have hlen : (searchToBattlefieldStep s o).2.active_player.battlefield.non_lands.length =
            s.active_player.battlefield.non_lands.length + 1 := by
          rw [h2]
          exact ObjMap.length_insert_of_not_mem _ _ _ hfresh
        have hll : (searchToBattlefieldStep s o).2.active_player.battlefield.lands =
            s.active_player.battlefield.lands := by rw [h2]
        refine ⟨?_, ?_, ?_, id_⟩
        · rw [List.length_cons, ia,
            countP_cons_true _ o os (by simp [hcp, Card.isNonPermanentSpell])]
        · rw [ib, hll, countP_cons_false _ o os (by simp [hcp, Card.isLand])]
        · rw [ic, hlen, countP_cons_true _ o os (by simp [hcp, Card.isPermanentSpell])]
          omega
      · rcases hnp (by rw [hcp]; rfl) with ⟨h1, h2, h3⟩
        have hstep : searchToBattlefieldStep s o =
            (none, (searchToBattlefieldStep s o).2) := by rw [← h1]
        rw [s2bLoop_cons_none hstep]
        have hids1 : (searchToBattlefieldStep s o).2.idsOk := by
          unfold GameState.idsOk
          rw [h3, h2]
          exact hids
        rcases ih _ hids1 with ⟨ia, ib, ic, id_⟩
        refine ⟨?_, ?_, ?_, id_⟩
        · rw [ia, countP_cons_false _ o os (by simp [hcp, Card.isNonPermanentSpell])]
        · rw [ib, h2, countP_cons_false _ o os (by simp [hcp, Card.isLand])]
        · rw [ic, h2, countP_cons_false _ o os (by simp [hcp, Card.isPermanentSpell])]

/-- C5: in `SearchLibraryToBattlefield`, a non-permanent-spell entry is
silently skipped (no id produced, battlefield untouched); land entries go to
`battlefield.lands` and permanent-spell entries to `battlefield.non_lands`
under freshly minted ids, so the returned id list's length equals the number
of non-skipped entries (possibly shorter than the input list). -/
theorem C5_search_battlefield (objs : List (GameObject Card)) (s : GameState)
    (hids : s.idsOk) :
    (∀ o : GameObject Card, o.permanent.isNonPermanentSpell = true →
      (searchToBattlefieldStep s o).1 = none ∧
      (searchToBattlefieldStep s o).2.active_player.battlefield =
        s.active_player.battlefield) ∧
    ((PrimitiveGameAction.searchLibraryToBattlefield objs).apply s).1 =
      .searchLibraryToBattlefield (searchToBattlefieldLoop objs s).1 ∧
    (searchToBattlefieldLoop objs s).1.length =
      objs.countP (fun o => ! o.permanent.isNonPermanentSpell) ∧
    ((searchToBattlefieldLoop objs s).2.active_player.battlefield.lands.length =
      s.active_player.battlefield.lands.length +
        objs.countP (fun o => o.permanent.isLand)) ∧
    ((searchToBattlefieldLoop objs s).2.active_player.battlefield.non_lands.length =
      s.active_player.battlefield.non_lands.length +
        objs.countP (fun o => o.permanent.isPermanentSpell)) := by
  rcases s2bLoop_spec objs s hids with ⟨h1, h2, h3, _⟩
  exact ⟨fun o ho => ⟨((s2bStep_spec s o).1 ho).1, ((s2bStep_spec s o).1 ho).2.1⟩,
    rfl, h1, h2, h3⟩

/-- A mixed search-to-battlefield request: one land, one non-permanent spell
(to be skipped), one permanent spell. -/
def s2bObjs : List (GameObject Card) :=
  [⟨.land .forest, .untapped⟩,
   ⟨.spell (.nonPermanent (.instant .summonersPact)), .untapped⟩,
   ⟨.spell (.permanent .amuletOfVigor), .tapped⟩]

/-- C5 witness: on the concrete state, two ids come back for the three
entries (the non-permanent spell contributes none). -/
theorem C5_witness :
    baseState.idsOk ∧
      (searchToBattlefieldLoop s2bObjs baseState).1.length =
        s2bObjs.countP (fun o => ! o.permanent.isNonPermanentSpell) :=
  ⟨by unfold GameState.idsOk Battlefield.idsOk; decide,
   (C5_search_battlefield s2bObjs baseState
     (by unfold GameState.idsOk Battlefield.idsOk; decide)).2.2.1⟩

-- ===========================================================================
-- More untouched-field lemmas, and identity-invariant preservation
-- ===========================================================================

theorem foldl_rel {α : Type} (R : GameState → GameState → Prop)
    (hrefl : ∀ s, R s s)
    (htrans : ∀ {s t u : GameState}, R s t → R t u → R s u)
    (step : GameState → α → GameState)
    (hstep : ∀ s a, R s (step s a)) :
    ∀ (l : List α) (s : GameState), R s (l.foldl step s) := by
  intro l
  induction l with
  | nil => intro s; exact hrefl s
  | cons a l ih =>
    intro s
    rw [List.foldl_cons]
    exact htrans (hstep s a) (ih (step s a))

/-- Battlefield and id counter unchanged (holds for everything that only
touches library, hand, graveyard or stack). -/
def bfIdUntouched (s t : GameState) : Prop :=
  t.active_player.battlefield = s.active_player.battlefield ∧
    t.next_id = s.next_id

theorem bfIdUntouched_refl (s : GameState) : bfIdUntouched s s := ⟨rfl, rfl⟩

theorem bfIdUntouched_trans {s t u : GameState} (h1 : bfIdUntouched s t)
    (h2 : bfIdUntouched t u) : bfIdUntouched s u :=
  ⟨h2.1.trans h1.1, h2.2.trans h1.2⟩

theorem idsOk_of_bfIdUntouched {s t : GameState} (h : bfIdUntouched s t)
    (hs : s.idsOk) : t.idsOk := by
  unfold GameState.idsOk
  rw [h.1, h.2]
  exact hs

theorem millStep_bfId (s : GameState) : bfIdUntouched s (millStep s).2 := by
  unfold millStep
  split <;> (try split) <;> simp_all [bfIdUntouched]

theorem millLoop_bfId (n : Nat) : ∀ s : GameState, bfIdUntouched s (millLoop n s).2 := by
  induction n with
  | zero => intro s; exact bfIdUntouched_refl s
  | succ n ih =>
    intro s
    have hstep := millStep_bfId s
    unfold millLoop
    rcases h : millStep s with ⟨o, s1⟩
    rw [h] at hstep
    cases o with
    | none => exact bfIdUntouched_trans hstep (ih s1)
    | some c => exact bfIdUntouched_trans hstep (ih s1)

theorem drawLoop_bfId (n : Nat) (s : GameState) : bfIdUntouched s (drawLoop n s).2 :=
  ⟨(drawLoop_untouched n s).1, (drawLoop_untouched n s).2.2.2⟩

theorem searchToHandStep_bfId (s : GameState) (c : Card) :
    bfIdUntouched s (searchToHandStep s c) := by
  unfold searchToHandStep
  split <;> simp_all [bfIdUntouched]

theorem searchToHandLoop_bfId (cs : List Card) :
    ∀ s : GameState, bfIdUntouched s (searchToHandLoop cs s) := by
  induction cs with
  | nil => intro s; exact bfIdUntouched_refl s
  | cons c cs ih =>
    intro s
    exact bfIdUntouched_trans (searchToHandStep_bfId s c) (ih (searchToHandStep s c))

theorem drawRevertAdds_bfId (cards : List Card) (s : GameState) :
    bfIdUntouched s (drawRevertAdds cards s) := by
  unfold drawRevertAdds
  exact foldl_rel bfIdUntouched bfIdUntouched_refl bfIdUntouched_trans
    (fun st c =>
      { st with active_player :=
        { st.active_player with library := st.active_player.library.add_card c } })
    (fun s' c => ⟨rfl, rfl⟩) cards s

theorem drawRevert_bfId (cards : List Card) (s : GameState) :
    bfIdUntouched s (drawRevert cards s) := by
  refine bfIdUntouched_trans (drawRevertAdds_bfId cards s) ?_
  exact ⟨rfl, rfl⟩

theorem millRevertStep_bfId (s : GameState) (c : Card) :
    bfIdUntouched s (millRevertStep s c) := by
  unfold millRevertStep
  split <;> simp_all [bfIdUntouched]

theorem searchHandRevertStep_bfId (s : GameState) (c : Card) :
    bfIdUntouched s (searchHandRevertStep s c) := by
  unfold searchHandRevertStep
  split <;> simp_all [bfIdUntouched]

theorem Battlefield.idsOk_filter_lands {b : Battlefield} {n : Nat}
    (h : b.idsOk n) (p : GameObjectId × GameObject Land → Bool) :
    Battlefield.idsOk { b with lands := b.lands.filter p } n := by
  have h2 := Battlefield.idsOk_filter h p (fun _ => true)
  rwa [List.filter_true] at h2

theorem Battlefield.idsOk_filter_non_lands {b : Battlefield} {n : Nat}
    (h : b.idsOk n) (q : GameObjectId × GameObject Permanent → Bool) :
    Battlefield.idsOk { b with non_lands := b.non_lands.filter q } n := by
  have h2 := Battlefield.idsOk_filter h (fun _ => true) q
  rwa [List.filter_true] at h2

theorem searchBattlefieldRevertStep_idsOk (s : GameState) (id : GameObjectId)
    (h : s.idsOk) : (searchBattlefieldRevertStep s id).idsOk := by
  unfold searchBattlefieldRevertStep
  split
  · rename_i obj lands1 heq
    have hl1 : lands1 =
        s.active_player.battlefield.lands.filter (fun p => p.1 ≠ id) :=
      (congrArg Prod.snd heq).symm.trans rfl
    show Battlefield.idsOk
      { s.active_player.battlefield with lands := lands1 } s.next_id
    rw [hl1]
    exact Battlefield.idsOk_filter_lands h _
  · split
    · rename_i obj nl1 heq
      have hn1 : nl1 =
          s.active_player.battlefield.non_lands.filter (fun p => p.1 ≠ id) :=
        (congrArg Prod.snd heq).symm.trans rfl
      show Battlefield.idsOk
        { s.active_player.battlefield with non_lands := nl1 } s.next_id
      rw [hn1]
      exact Battlefield.idsOk_filter_non_lands h _
    · exact h

theorem foldl_idsOk {α : Type} (step : GameState → α → GameState)
    (hstep : ∀ s a, s.idsOk → (step s a).idsOk) :
    ∀ (l : List α) (s : GameState), s.idsOk → (l.foldl step s).idsOk := by
  intro l
  induction l with
  | nil => intro s hs; exact hs
  | cons a l ih =>
    intro s hs
    rw [List.foldl_cons]
    exact ih (step s a) (hstep s a hs)

/-- Every primitive apply preserves the identity invariant. -/
theorem primApply_idsOk (a : PrimitiveGameAction) (s : GameState)
    (h : s.idsOk) : (a.apply s).2.idsOk := by
  cases a with
  | drawCards n => exact idsOk_of_bfIdUntouched (drawLoop_bfId n s) h
  | millCards n => exact idsOk_of_bfIdUntouched (millLoop_bfId n s) h
  | playLand l t =>
    show Battlefield.idsOk
      { s.active_player.battlefield with
        lands := s.active_player.battlefield.lands.insert s.next_id ⟨l, t⟩ }
      (s.next_id + 1)
    exact Battlefield.idsOk_insert_lands h _
  | increaseLandPlays n => exact h
  | searchLibraryToHand cs =>
    exact idsOk_of_bfIdUntouched (searchToHandLoop_bfId cs s) h
  | searchLibraryToBattlefield os => exact (s2bLoop_spec os s h).2.2.2
  | trigger t => exact h

theorem sequenceApplyLoop_idsOk (as_ : List PrimitiveGameAction) :
    ∀ s : GameState, s.idsOk → (sequenceApplyLoop as_ s).2.idsOk := by
  induction as_ with
  | nil => intro s hs; exact hs
  | cons a as_ ih =>
    intro s hs
    exact ih (a.apply s).2 (primApply_idsOk a s hs)

/-- Every apply preserves the identity invariant. -/
theorem apply_idsOk (a : GameAction) (s : GameState) (h : s.idsOk) :
    (a.apply s).2.idsOk := by
  cases a with
  | passPriority => exact h
  | primitive p => exact primApply_idsOk p s h
  | castSpell sp => exact h
  | activateAbility src t => exact h
  | sequence l => exact sequenceApplyLoop_idsOk l s h

/-- Every primitive revert preserves the identity invariant. -/
theorem primRevert_idsOk (r : PrimitiveGameActionResult) (s : GameState)
    (h : s.idsOk) : (r.revert s).idsOk := by
  cases r with
  | drawCards cards => exact idsOk_of_bfIdUntouched (drawRevert_bfId cards s) h
  | millCards cards =>
    exact foldl_idsOk millRevertStep
      (fun s' c h' => idsOk_of_bfIdUntouched (millRevertStep_bfId s' c) h')
      cards.reverse s h
  | playLand id =>
    show Battlefield.idsOk
      { s.active_player.battlefield with
        lands := (s.active_player.battlefield.lands.remove id).2 } s.next_id
    exact Battlefield.idsOk_filter_lands h _
  | increaseLandPlays n => exact h
  | searchLibraryToHand cards =>
    exact foldl_idsOk searchHandRevertStep
      (fun s' c h' => idsOk_of_bfIdUntouched (searchHandRevertStep_bfId s' c) h')
      cards.reverse s h
  | searchLibraryToBattlefield ids =>
    exact foldl_idsOk searchBattlefieldRevertStep
      searchBattlefieldRevertStep_idsOk ids.reverse s h
  | trigger => exact h

/-- Every revert preserves the identity invariant. -/
theorem revert_idsOk (r : GameActionResult) (s : GameState) (h : s.idsOk) :
    (r.revert s).idsOk := by
  cases r with
  | passPriority => exact h
  | primitive pr => exact primRevert_idsOk pr s h
  | castSpell =>
    unfold GameActionResult.revert
    rcases hl : s.stack.objects.getLast? with _ | obj
    · exact h
    · cases obj <;> exact h
  | activateAbility src =>
    unfold GameActionResult.revert
    rcases hl : s.stack.objects.getLast? with _ | obj
    · exact h
    · cases obj <;> exact h
  | sequence rs =>
    exact foldl_idsOk (fun st pr => PrimitiveGameActionResult.revert pr st)
      (fun s' pr h' => primRevert_idsOk pr s' h') rs.reverse s h

/-- Counter monotone under every apply. -/
theorem gameApply_next_id (a : GameAction) (s : GameState) :
    s.next_id ≤ (a.apply s).2.next_id := by
  cases a with
  | passPriority => exact Nat.le_refl _
  | primitive p => exact (primApply_frameA p s).2
  | castSpell sp => exact Nat.le_refl _
  | activateAbility src t => exact Nat.le_refl _
  | sequence l => exact (sequenceApplyLoop_frameA l s).2

/-- Counter unchanged under every revert. -/
theorem gameRevert_next_id (r : GameActionResult) (s : GameState) :
    (r.revert s).next_id = s.next_id := by
  cases r with
  | passPriority => rfl
  | primitive pr => exact (primRevert_frameR pr s).2
  | castSpell =>
    unfold GameActionResult.revert
    rcases hl : s.stack.objects.getLast? with _ | obj
    · rfl
    · cases obj <;> rfl
  | activateAbility src =>
    unfold GameActionResult.revert
    rcases hl : s.stack.objects.getLast? with _ | obj
    · rfl
    · cases obj <;> rfl
  | sequence rs =>
    exact (foldl_frameR (fun st pr => PrimitiveGameActionResult.revert pr st)
      (fun s' pr => primRevert_frameR pr s') rs.reverse s).2

-- ===========================================================================
-- C6 : identity uniqueness
-- ===========================================================================

/-- C6: ids are minted from a counter that only increases (`apply` never
decreases it, `revert` never changes it, and in particular `PlayLand`'s
revert removes the object but leaves the counter alone); the live-identity
invariant — all battlefield keys below the counter, distinct within each map,
and disjoint across the two maps — is preserved by every apply and revert, so
no two simultaneously-live battlefield objects ever share a `GameObjectId`. -/
theorem C6_id_uniqueness :
    (∀ s : GameState,
      s.next_game_object_id.1 = s.next_id ∧
      s.next_game_object_id.2.next_id = s.next_id + 1) ∧
    (∀ (a : GameAction) (s : GameState), s.next_id ≤ (a.apply s).2.next_id) ∧
    (∀ (r : GameActionResult) (s : GameState),
      (r.revert s).next_id = s.next_id) ∧
    (∀ (id : GameObjectId) (s : GameState),
      (PrimitiveGameActionResult.playLand id).revert s =
        { s with active_player :=
          { s.active_player with battlefield :=
            { s.active_player.battlefield with
              lands := (s.active_player.battlefield.lands.remove id).2 } } }) ∧
    (∀ (a : GameAction) (s : GameState), s.idsOk → (a.apply s).2.idsOk) ∧
    (∀ (r : GameActionResult) (s : GameState), s.idsOk → (r.revert s).idsOk) ∧
    (∀ s : GameState, s.idsOk →
      (ObjMap.keys s.active_player.battlefield.lands ++
        ObjMap.keys s.active_player.battlefield.non_lands).Nodup) := by
  refine ⟨fun s => ⟨rfl, rfl⟩, gameApply_next_id, gameRevert_next_id,
    fun id s => rfl, apply_idsOk, revert_idsOk, ?_⟩
  intro s hids
  rcases hids with ⟨h1, h2, h3, h4, h5⟩
  exact List.Nodup.append h3 h4 (fun k hk1 hk2 => h5 k hk1 hk2)

/-- C6 witness: the concrete base state satisfies the invariant, and it still
holds after applying a `PlayLand` and after reverting its result. -/
theorem C6_witness :
    baseState.idsOk ∧
      ((GameAction.primitive (.playLand .forest .untapped)).apply
        baseState).2.idsOk :=
  ⟨by unfold GameState.idsOk Battlefield.idsOk; decide,
   C6_id_uniqueness.2.2.2.2.1 (GameAction.primitive (.playLand .forest .untapped))
     baseState (by unfold GameState.idsOk Battlefield.idsOk; decide)⟩

-- ===========================================================================
-- C1 : round-trip
-- ===========================================================================

/-- The primitives whose apply/revert pair is an exact inverse on every
state: pushing a trigger and increasing land plays.  (Draws advance the rng,
library searches can saturate and reorder the hand, and land/battlefield
insertions advance the id counter, so those pairs are not exact.) -/
def PrimitiveGameAction.exactInvertible : PrimitiveGameAction → Bool
  | .trigger _ => true
  | .increaseLandPlays _ => true
  | _ => false

/-- The actions whose apply/revert pair restores the state exactly. -/
def GameAction.exactUndo : GameAction → Bool
  | .passPriority => true
  | .castSpell _ => true
  | .activateAbility _ _ => true
  | .primitive p => p.exactInvertible
  | .sequence ps => ps.all PrimitiveGameAction.exactInvertible

theorem togglePriority_involutive (p : PlayerId) :
    togglePriority (togglePriority p) = p := by
  cases p <;> rfl

/-- Exact round trip for the invertible primitives. -/
theorem primPair_exact (p : PrimitiveGameAction) (s : GameState)
    (hp : p.exactInvertible = true) :
    ((p.apply s).1).revert (p.apply s).2 = s := by
  cases p with
  | trigger t =>
    show { s with stack :=
      { objects := (s.stack.objects ++ [StackObject.trigger t]).dropLast } } = s
    rw [List.dropLast_concat]
  | increaseLandPlays n =>
    show { s with active_player :=
      { s.active_player with battlefield :=
        { s.active_player.battlefield with
          land_plays := s.active_player.battlefield.land_plays + n - n } } } = s
    rw [Nat.add_sub_cancel]
  | drawCards n => exact Bool.noConfusion hp
  | millCards n => exact Bool.noConfusion hp
  | playLand l t => exact Bool.noConfusion hp
  | searchLibraryToHand cs => exact Bool.noConfusion hp
  | searchLibraryToBattlefield os => exact Bool.noConfusion hp

/-- Exact round trip for sequences of invertible primitives: the revert walks
the per-step results in strict reverse order. -/
theorem seqLoop_exact (ps : List PrimitiveGameAction) :
    ∀ s : GameState, (∀ p ∈ ps, p.exactInvertible = true) →
      (sequenceApplyLoop ps s).1.reverse.foldl
        (fun st pr => PrimitiveGameActionResult.revert pr st)
        (sequenceApplyLoop ps s).2 = s := by
  induction ps with
  | nil => intro s _; rfl
  | cons p ps ih =>
    intro s hall
    show (((p.apply s).1 :: (sequenceApplyLoop ps (p.apply s).2).1)).reverse.foldl
      (fun st pr => PrimitiveGameActionResult.revert pr st)
      (sequenceApplyLoop ps (p.apply s).2).2 = s
    rw [List.reverse_cons, List.foldl_append,
      ih (p.apply s).2 (fun q hq => hall q (List.mem_cons_of_mem p hq))]
    show ((p.apply s).1).revert (p.apply s).2 = s
    exact primPair_exact p s (hall p (List.mem_cons_self p ps))

/-- C1 counterexample: the claimed universal round-trip fails.  Applying
`PlayLand(Forest, Untapped)` to the base state and reverting the result does
not restore the state: the `next_id` counter stays incremented (1 ≠ 0). -/
theorem C1_counterexample :
    (((GameAction.primitive (.playLand .forest .untapped)).apply baseState).1).revert
      ((GameAction.primitive (.playLand .forest .untapped)).apply baseState).2 ≠
      baseState := by
  intro h
  exact absurd (congrArg GameState.next_id h) (by decide)

/-- Exact round trip for every action in the `exactUndo` class. -/
theorem gamePair_exact (a : GameAction) (s : GameState)
    (ha : a.exactUndo = true) :
    ((a.apply s).1).revert (a.apply s).2 = s := by
  cases a with
  | passPriority =>
    show { s with priority := togglePriority (togglePriority s.priority) } = s
    rw [togglePriority_involutive]
  | castSpell sp =>
    show GameActionResult.castSpell.revert
      { s with stack := { objects := s.stack.objects ++ [StackObject.spell sp] } } = s
    unfold GameActionResult.revert
    rw [List.getLast?_concat]
    show { s with stack :=
      { objects := (s.stack.objects ++ [StackObject.spell sp]).dropLast } } = s
    rw [List.dropLast_concat]
  | activateAbility src t =>
    show (GameActionResult.activateAbility src).revert
      { s with stack :=
        { objects := s.stack.objects ++ [StackObject.activatedAbility src t] } } = s
    unfold GameActionResult.revert
    rw [List.getLast?_concat]
    show { s with stack :=
      { objects := (s.stack.objects ++ [StackObject.activatedAbility src t]).dropLast } } = s
    rw [List.dropLast_concat]
  | primitive p => exact primPair_exact p s ha
  | sequence ps =>
    exact seqLoop_exact ps s (fun p hp => List.all_eq_true.mp ha p hp)

/-- C1 amended: the round trip `revert (apply a s) = s` holds (with exact
structural equality, and with Sequence reverts walking the per-step results
in reverse order) for the actions that do not draw, search the library, or
mint ids: `PassPriority`, `CastSpell`, `ActivateAbility`, and
`Trigger` / `IncreaseLandPlays` primitives including arbitrary sequences of
them.  It fails in general: minting actions leave `next_id` advanced, draws
advance the rng, and searches can saturate counters or reorder the hand. -/
theorem C1_roundtrip_amended (a : GameAction) (s : GameState)
    (ha : a.exactUndo = true) :
    ((a.apply s).1).revert (a.apply s).2 = s :=
  gamePair_exact a s ha

/-- C1 witness: the amended round trip on a concrete three-step sequence of
invertible primitives. -/
theorem C1_witness :
    (GameAction.sequence
      [.trigger (.enters (.land .forest)), .increaseLandPlays 2,
        .trigger (.amuletUntap 5)]).exactUndo = true ∧
    (((GameAction.sequence
      [.trigger (.enters (.land .forest)), .increaseLandPlays 2,
        .trigger (.amuletUntap 5)]).apply triggerTopState).1).revert
      ((GameAction.sequence
        [.trigger (.enters (.land .forest)), .increaseLandPlays 2,
          .trigger (.amuletUntap 5)]).apply triggerTopState).2 = triggerTopState :=
  ⟨by decide,
   C1_roundtrip_amended
     (GameAction.sequence
       [.trigger (.enters (.land .forest)), .increaseLandPlays 2,
         .trigger (.amuletUntap 5)]) triggerTopState (by decide)⟩

-- ===========================================================================
-- C2 : conservation.  Part 1: DrawCards pair
-- ===========================================================================

/-- Unconditional case analysis of one draw step: either nothing happens, or
one card moves from the library to the hand. -/
theorem drawStep_cases (s : GameState) :
    drawStep s = (none, s) ∨
    ∃ c : Card,
      (drawStep s).1 = some c ∧
      (drawStep s).2.active_player.hand.lands =
        s.active_player.hand.lands ++ landsOf [c] ∧
      (drawStep s).2.active_player.hand.spells =
        s.active_player.hand.spells ++ spellsOf [c] ∧
      (drawStep s).2.active_player.library.size + 1 =
        s.active_player.library.size := by
  rcases draw_random_card_cases s.active_player.library with hn | ⟨c, hc, hsz, heq⟩
  · left
    unfold drawStep
    rw [hn]
  · right
    refine ⟨c, ?_⟩
    unfold drawStep
    rw [heq]
    cases c with
    | land l =>
      refine ⟨rfl, rfl, ?_, ?_⟩
      · simp [spellsOf]
      · simp only
        omega
    | spell sp =>
      refine ⟨rfl, ?_, rfl, ?_⟩
      · simp [landsOf]
      · simp only
        omega

/-- Unconditional size and hand bookkeeping of the draw loop. -/
theorem drawLoop_sizes (n : Nat) : ∀ s : GameState,
    (drawLoop n s).2.active_player.library.size + (drawLoop n s).1.length =
      s.active_player.library.size ∧
    (drawLoop n s).2.active_player.hand.lands =
      s.active_player.hand.lands ++ landsOf (drawLoop n s).1 ∧
    (drawLoop n s).2.active_player.hand.spells =
      s.active_player.hand.spells ++ spellsOf (drawLoop n s).1 := by
  induction n with
  | zero =>
    intro s
    exact ⟨rfl, by simp [drawLoop, landsOf], by simp [drawLoop, spellsOf]⟩
  | succ n ih =>
    intro s
    rcases drawStep_cases s with hn | ⟨c, h1, h2, h3, h4⟩
    · rw [drawLoop_succ_none hn]
      exact ih s
    · have hstep : drawStep s = (some c, (drawStep s).2) := by rw [← h1]
      rw [drawLoop_succ_some hstep]
      rcases ih (drawStep s).2 with ⟨ia, ib, ic⟩
      refine ⟨?_, ?_, ?_⟩
      · show (drawLoop n (drawStep s).2).2.active_player.library.size +
          ((c :: (drawLoop n (drawStep s).2).1)).length = s.active_player.library.size
        simp only [List.length_cons]
        omega
      · show (drawLoop n (drawStep s).2).2.active_player.hand.lands =
          s.active_player.hand.lands ++ landsOf (c :: (drawLoop n (drawStep s).2).1)
        rw [ib, h2, List.append_assoc, ← landsOf_cons]
      · show (drawLoop n (drawStep s).2).2.active_player.hand.spells =
          s.active_player.hand.spells ++ spellsOf (c :: (drawLoop n (drawStep s).2).1)
        rw [ic, h3, List.append_assoc, ← spellsOf_cons]

/-- The re-adding loop of the `DrawCards` revert grows the library size by
the number of cards and touches nothing else. -/
theorem drawRevertAdds_state (cards : List Card) : ∀ s : GameState,
    (drawRevertAdds cards s).active_player.library.size =
      s.active_player.library.size + cards.length ∧
    (drawRevertAdds cards s).active_player.hand = s.active_player.hand ∧
    (drawRevertAdds cards s).active_player.graveyard = s.active_player.graveyard ∧
    (drawRevertAdds cards s).active_player.battlefield = s.active_player.battlefield ∧
    (drawRevertAdds cards s).stack = s.stack ∧
    (drawRevertAdds cards s).next_id = s.next_id := by
  induction cards with
  | nil => intro s; exact ⟨rfl, rfl, rfl, rfl, rfl, rfl⟩
  | cons c cs ih =>
    intro s
    have hcons : drawRevertAdds (c :: cs) s =
        drawRevertAdds cs
          { s with active_player :=
            { s.active_player with
              library := s.active_player.library.add_card c } } := rfl
    rw [hcons]
    rcases ih { s with active_player :=
      { s.active_player with library := s.active_player.library.add_card c } } with
      ⟨i1, i2, i3, i4, i5, i6⟩
    refine ⟨?_, i2, i3, i4, i5, i6⟩
    rw [i1]
    show s.active_player.library.size + 1 + cs.length =
      s.active_player.library.size + (cs.length + 1)
    omega

/-- Total-card equality follows from componentwise size equalities. -/
theorem totalCards_congr {s t : GameState}
    (h1 : t.active_player.library.size = s.active_player.library.size)
    (h2 : t.active_player.hand.lands.length = s.active_player.hand.lands.length)
    (h3 : t.active_player.hand.spells.length = s.active_player.hand.spells.length)
    (h4 : t.active_player.battlefield.lands.length =
      s.active_player.battlefield.lands.length)
    (h5 : t.active_player.battlefield.non_lands.length =
      s.active_player.battlefield.non_lands.length)
    (h6 : t.active_player.graveyard.lands.length =
      s.active_player.graveyard.lands.length)
    (h7 : t.active_player.graveyard.spells.length =
      s.active_player.graveyard.spells.length) :
    t.totalCards = s.totalCards := by
  unfold GameState.totalCards Hand.card_count Battlefield.card_count
    Graveyard.card_count
  omega

/-- Conservation for a `DrawCards` apply/revert pair: the total card count
across the active player's zones is restored. -/
theorem drawPair_totals (n : Nat) (s : GameState) :
    ((PrimitiveGameActionResult.drawCards (drawLoop n s).1).revert
      (drawLoop n s).2).totalCards = s.totalCards := by
  rcases drawLoop_sizes n s with ⟨hsz, hlands, hspells⟩
  rcases drawLoop_untouched n s with ⟨hbf, hgy, _, _⟩
  rcases drawRevertAdds_state (drawLoop n s).1 (drawLoop n s).2 with
    ⟨a1, a2, a3, a4, _, _⟩
  have hl1 : (drawRevertAdds (drawLoop n s).1
        (drawLoop n s).2).active_player.hand.lands =
      s.active_player.hand.lands ++ landsOf (drawLoop n s).1 := by
    rw [a2, hlands]
  have hs1 : (drawRevertAdds (drawLoop n s).1
        (drawLoop n s).2).active_player.hand.spells =
      s.active_player.hand.spells ++ spellsOf (drawLoop n s).1 := by
    rw [a2, hspells]
  have htake1 : ((drawRevertAdds (drawLoop n s).1
        (drawLoop n s).2).active_player.hand.lands.take
      ((drawRevertAdds (drawLoop n s).1
        (drawLoop n s).2).active_player.hand.lands.length -
        (drawLoop n s).1.countP Card.isLand)) = s.active_player.hand.lands := by
    rw [hl1, List.length_append, ← length_landsOf,
      Nat.add_sub_cancel]
    exact List.take_left' rfl
  have htake2 : ((drawRevertAdds (drawLoop n s).1
        (drawLoop n s).2).active_player.hand.spells.take
      ((drawRevertAdds (drawLoop n s).1
        (drawLoop n s).2).active_player.hand.spells.length -
        (drawLoop n s).1.countP (fun c => ! c.isLand))) =
      s.active_player.hand.spells := by
    rw [hs1, List.length_append, ← length_spellsOf,
      Nat.add_sub_cancel]
    exact List.take_left' rfl
  refine totalCards_congr ?_ ?_ ?_ ?_ ?_ ?_ ?_
  · show (drawRevertAdds (drawLoop n s).1
      (drawLoop n s).2).active_player.library.size =
      s.active_player.library.size
    omega
  · show ((drawRevertAdds (drawLoop n s).1
      (drawLoop n s).2).active_player.hand.lands.take
        ((drawRevertAdds (drawLoop n s).1
          (drawLoop n s).2).active_player.hand.lands.length -
          (drawLoop n s).1.countP Card.isLand)).length =
      s.active_player.hand.lands.length
    rw [htake1]
  · show ((drawRevertAdds (drawLoop n s).1
      (drawLoop n s).2).active_player.hand.spells.take
        ((drawRevertAdds (drawLoop n s).1
          (drawLoop n s).2).active_player.hand.spells.length -
          (drawLoop n s).1.countP (fun c => ! c.isLand))).length =
      s.active_player.hand.spells.length
    rw [htake2]
  · show (drawRevertAdds (drawLoop n s).1
      (drawLoop n s).2).active_player.battlefield.lands.length =
      s.active_player.battlefield.lands.length
    rw [a4, hbf]
  · show (drawRevertAdds (drawLoop n s).1
      (drawLoop n s).2).active_player.battlefield.non_lands.length =
      s.active_player.battlefield.non_lands.length
    rw [a4, hbf]
  · show (drawRevertAdds (drawLoop n s).1
      (drawLoop n s).2).active_player.graveyard.lands.length =
      s.active_player.graveyard.lands.length
    rw [a3, hgy]
  · show (drawRevertAdds (drawLoop n s).1
      (drawLoop n s).2).active_player.graveyard.spells.length =
      s.active_player.graveyard.spells.length
    rw [a3, hgy]

-- ===========================================================================
-- C2 part 2 : MillCards pair
-- ===========================================================================

theorem count_landsOf (cs : List Card) (l : Land) :
    (landsOf cs).count l = cs.count (Card.land l) := by
  induction cs with
  | nil => rfl
  | cons c cs ih =>
    cases c with
    | land l' =>
      by_cases h : l' = l
      · subst h
        simp [landsOf, List.count_cons, ih]
      · simp [landsOf, List.count_cons, ih, h]
    | spell sp => simp [landsOf, List.count_cons, ih]

theorem count_spellsOf (cs : List Card) (sp : Spell) :
    (spellsOf cs).count sp = cs.count (Card.spell sp) := by
  induction cs with
  | nil => rfl
  | cons c cs ih =>
    cases c with
    | land l => simp [spellsOf, List.count_cons, ih]
    | spell sp' =>
      by_cases h : sp' = sp
      · subst h
        simp [spellsOf, List.count_cons, ih]
      · simp [spellsOf, List.count_cons, ih, h]

theorem millStep_cases (s : GameState) :
    millStep s = (none, s) ∨
    ∃ c : Card,
      (millStep s).1 = some c ∧
      (millStep s).2.active_player.graveyard.lands =
        s.active_player.graveyard.lands ++ landsOf [c] ∧
      (millStep s).2.active_player.graveyard.spells =
        s.active_player.graveyard.spells ++ spellsOf [c] ∧
      (millStep s).2.active_player.library.size + 1 =
        s.active_player.library.size ∧
      (millStep s).2.active_player.hand = s.active_player.hand ∧
      (millStep s).2.active_player.battlefield = s.active_player.battlefield := by
  rcases draw_random_card_cases s.active_player.library with hn | ⟨c, hc, hsz, heq⟩
  · left
    unfold millStep
    rw [hn]
  · right
    refine ⟨c, ?_⟩
    unfold millStep
    rw [heq]
    cases c with
    | land l =>
      refine ⟨rfl, rfl, ?_, ?_, rfl, rfl⟩
      · simp [spellsOf]
      · simp only
        omega
    | spell sp =>
      refine ⟨rfl, ?_, rfl, ?_, rfl, rfl⟩
      · simp [landsOf]
      · simp only
        omega

theorem millLoop_succ_none {n : Nat} {s s1 : GameState}
    (h : millStep s = (none, s1)) : millLoop (n + 1) s = millLoop n s1 := by
  conv_lhs => rw [millLoop]
  rw [h]

theorem millLoop_succ_some {n : Nat} {s s1 : GameState} {c : Card}
    (h : millStep s = (some c, s1)) :
    millLoop (n + 1) s = (c :: (millLoop n s1).1, (millLoop n s1).2) := by
  conv_lhs => rw [millLoop]
  rw [h]

/-- Size, graveyard and untouched-zone bookkeeping of the mill loop. -/
theorem millLoop_sizes (n : Nat) : ∀ s : GameState,
    (millLoop n s).2.active_player.library.size + (millLoop n s).1.length =
      s.active_player.library.size ∧
    (millLoop n s).2.active_player.graveyard.lands =
      s.active_player.graveyard.lands ++ landsOf (millLoop n s).1 ∧
    (millLoop n s).2.active_player.graveyard.spells =
      s.active_player.graveyard.spells ++ spellsOf (millLoop n s).1 ∧
    (millLoop n s).2.active_player.hand = s.active_player.hand ∧
    (millLoop n s).2.active_player.battlefield = s.active_player.battlefield := by
  induction n with
  | zero =>
    intro s
    exact ⟨rfl, by simp [millLoop, landsOf], by simp [millLoop, spellsOf], rfl, rfl⟩
  | succ n ih =>
    intro s
    rcases millStep_cases s with hn | ⟨c, h1, h2, h3, h4, h5, h6⟩
    · rw [millLoop_succ_none hn]
      exact ih s
    · have hstep : millStep s = (some c, (millStep s).2) := by rw [← h1]
      rw [millLoop_succ_some hstep]
      rcases ih (millStep s).2 with ⟨ia, ib, ic, id_, ie⟩
      refine ⟨?_, ?_, ?_, id_.trans h5, ie.trans h6⟩
      · show (millLoop n (millStep s).2).2.active_player.library.size +
          ((c :: (millLoop n (millStep s).2).1)).length = s.active_player.library.size
        simp only [List.length_cons]
        omega
      · show (millLoop n (millStep s).2).2.active_player.graveyard.lands =
          s.active_player.graveyard.lands ++ landsOf (c :: (millLoop n (millStep s).2).1)
        rw [ib, h2, List.append_assoc, ← landsOf_cons]
      · show (millLoop n (millStep s).2).2.active_player.graveyard.spells =
          s.active_player.graveyard.spells ++ spellsOf (c :: (millLoop n (millStep s).2).1)
        rw [ic, h3, List.append_assoc, ← spellsOf_cons]

/-- The mill revert fold: under the multiset precondition (each value to be
removed occurs in the graveyard) every by-value removal succeeds, so the
graveyard shrinks by exactly the removed counts and the library grows by one
per card. -/
theorem millRevertFold_totals (cs : List Card) : ∀ t : GameState,
    (∀ l : Land, (landsOf cs).count l ≤ t.active_player.graveyard.lands.count l) →
    (∀ sp : Spell, (spellsOf cs).count sp ≤ t.active_player.graveyard.spells.count sp) →
    (cs.foldl millRevertStep t).active_player.graveyard.lands.length +
      (landsOf cs).length = t.active_player.graveyard.lands.length ∧
    (cs.foldl millRevertStep t).active_player.graveyard.spells.length +
      (spellsOf cs).length = t.active_player.graveyard.spells.length ∧
    (cs.foldl millRevertStep t).active_player.library.size =
      t.active_player.library.size + cs.length ∧
    (cs.foldl millRevertStep t).active_player.hand = t.active_player.hand ∧
    (cs.foldl millRevertStep t).active_player.battlefield =
      t.active_player.battlefield := by
  induction cs with
  | nil => intro t _ _; exact ⟨rfl, rfl, rfl, rfl, rfl⟩
  | cons c cs ih =>
    intro t hld hsd
    rw [List.foldl_cons]
    cases c with
    | land l =>
      have hmem : l ∈ t.active_player.graveyard.lands := by
        have := hld l
        rw [landsOf, List.count_cons_self] at this
        exact List.count_pos_iff.mp (by omega)
      have hlen : (t.active_player.graveyard.lands.erase l).length + 1 =
          t.active_player.graveyard.lands.length := by
        rw [List.length_erase_of_mem hmem]
        have := List.length_pos.mpr (List.ne_nil_of_mem hmem)
        omega
      have hld' : ∀ l' : Land, (landsOf cs).count l' ≤
          (millRevertStep t (.land l)).active_player.graveyard.lands.count l' := by
        intro l'
        show (landsOf cs).count l' ≤
          (t.active_player.graveyard.lands.erase l).count l'
        rw [List.count_erase]
        have h0 := hld l'
        rw [landsOf, List.count_cons] at h0
        by_cases he : l = l'
        · subst he
          simp only [beq_self_eq_true, if_true] at h0 ⊢
          omega
        · have hne : (l == l') = false := beq_eq_false_iff_ne.mpr he
          rw [hne] at h0 ⊢
          simp only [Bool.false_eq_true, if_false] at h0 ⊢
          omega
      have hsd' : ∀ sp' : Spell, (spellsOf cs).count sp' ≤
          (millRevertStep t (.land l)).active_player.graveyard.spells.count sp' := by
        intro sp'
        show (spellsOf cs).count sp' ≤
          t.active_player.graveyard.spells.count sp'
        have h0 := hsd sp'
        rw [spellsOf] at h0
        exact h0
      rcases ih (millRevertStep t (.land l)) hld' hsd' with ⟨i1, i2, i3, i4, i5⟩
      have e1 : (millRevertStep t (.land l)).active_player.graveyard.lands.length + 1 =
          t.active_player.graveyard.lands.length := hlen
      have e2 : (millRevertStep t (.land l)).active_player.graveyard.spells.length =
          t.active_player.graveyard.spells.length := rfl
      have e3 : (millRevertStep t (.land l)).active_player.library.size =
          t.active_player.library.size + 1 := rfl
      have e4 : (millRevertStep t (.land l)).active_player.hand =
          t.active_player.hand := rfl
      have e5 : (millRevertStep t (.land l)).active_player.battlefield =
          t.active_player.battlefield := rfl
      refine ⟨?_, ?_, ?_, i4.trans e4, i5.trans e5⟩
      · rw [landsOf]
        simp only [List.length_cons]
        omega
      · rw [spellsOf]
        omega
      · simp only [List.length_cons]
        omega
    | spell sp =>
      have hmem : sp ∈ t.active_player.graveyard.spells := by
        have := hsd sp
        rw [spellsOf, List.count_cons_self] at this
        exact List.count_pos_iff.mp (by omega)
      have hlen : (t.active_player.graveyard.spells.erase sp).length + 1 =
          t.active_player.graveyard.spells.length := by
        rw [List.length_erase_of_mem hmem]
        have := List.length_pos.mpr (List.ne_nil_of_mem hmem)
        omega
      have hld' : ∀ l' : Land, (landsOf cs).count l' ≤
          (millRevertStep t (.spell sp)).active_player.graveyard.lands.count l' := by
        intro l'
        show (landsOf cs).count l' ≤
          t.active_player.graveyard.lands.count l'
        have h0 := hld l'
        rw [landsOf] at h0
        exact h0
      have hsd' : ∀ sp' : Spell, (spellsOf cs).count sp' ≤
          (millRevertStep t (.spell sp)).active_player.graveyard.spells.count sp' := by
        intro sp'
        show (spellsOf cs).count sp' ≤
          (t.active_player.graveyard.spells.erase sp).count sp'
        rw [List.count_erase]
        have h0 := hsd sp'
        rw [spellsOf, List.count_cons] at h0
        by_cases he : sp = sp'
        · subst he
          simp only [beq_self_eq_true, if_true] at h0 ⊢
          omega
        · have hne : (sp == sp') = false := beq_eq_false_iff_ne.mpr he
          rw [hne] at h0 ⊢
          simp only [Bool.false_eq_true, if_false] at h0 ⊢
          omega
      rcases ih (millRevertStep t (.spell sp)) hld' hsd' with ⟨i1, i2, i3, i4, i5⟩
      have e1 : (millRevertStep t (.spell sp)).active_player.graveyard.spells.length + 1 =
          t.active_player.graveyard.spells.length := hlen
      have e2 : (millRevertStep t (.spell sp)).active_player.graveyard.lands.length =
          t.active_player.graveyard.lands.length := rfl
      have e3 : (millRevertStep t (.spell sp)).active_player.library.size =
          t.active_player.library.size + 1 := rfl
      have e4 : (millRevertStep t (.spell sp)).active_player.hand =
          t.active_player.hand := rfl
      have e5 : (millRevertStep t (.spell sp)).active_player.battlefield =
          t.active_player.battlefield := rfl
      refine ⟨?_, ?_, ?_, i4.trans e4, i5.trans e5⟩
      · rw [landsOf]
        omega
      · rw [spellsOf]
        simp only [List.length_cons]
        omega
      · simp only [List.length_cons]
        omega

/-- Conservation for a `MillCards` apply/revert pair. -/
theorem millPair_totals (n : Nat) (s : GameState) :
    ((PrimitiveGameActionResult.millCards (millLoop n s).1).revert
      (millLoop n s).2).totalCards = s.totalCards := by
  rcases millLoop_sizes n s with ⟨hsz, hgl, hgs, hhand, hbf⟩
  have hld : ∀ l : Land, (landsOf (millLoop n s).1.reverse).count l ≤
      (millLoop n s).2.active_player.graveyard.lands.count l := by
    intro l
    rw [count_landsOf, List.count_reverse, ← count_landsOf, hgl,
      List.count_append]
    omega
  have hsd : ∀ sp : Spell, (spellsOf (millLoop n s).1.reverse).count sp ≤
      (millLoop n s).2.active_player.graveyard.spells.count sp := by
    intro sp
    rw [count_spellsOf, List.count_reverse, ← count_spellsOf, hgs,
      List.count_append]
    omega
  rcases millRevertFold_totals (millLoop n s).1.reverse (millLoop n s).2 hld hsd
    with ⟨i1, i2, i3, i4, i5⟩
  show ((millLoop n s).1.reverse.foldl millRevertStep (millLoop n s).2).totalCards =
    s.totalCards
  have hll : (landsOf (millLoop n s).1.reverse).length =
      (landsOf (millLoop n s).1).length := by
    rw [length_landsOf, length_landsOf, List.countP_reverse]
  have hsl : (spellsOf (millLoop n s).1.reverse).length =
      (spellsOf (millLoop n s).1).length := by
    rw [length_spellsOf, length_spellsOf, List.countP_reverse]
  refine totalCards_congr ?_ ?_ ?_ ?_ ?_ ?_ ?_
  · rw [i3]
    rw [List.length_reverse]
    omega
  · rw [i4, hhand]
  · rw [i4, hhand]
  · rw [i5, hbf]
  · rw [i5, hbf]
  · have h1 : (millLoop n s).2.active_player.graveyard.lands.length =
        s.active_player.graveyard.lands.length + (landsOf (millLoop n s).1).length := by
      rw [hgl, List.length_append]
    omega
  · have h1 : (millLoop n s).2.active_player.graveyard.spells.length =
        s.active_player.graveyard.spells.length + (spellsOf (millLoop n s).1).length := by
      rw [hgs, List.length_append]
    omega

-- ===========================================================================
-- C2 part 3 : SearchLibraryToHand pair
-- ===========================================================================

/-- Threading the card-presence precondition through one exact decrement. -/
theorem count_le_update_of_cons {cs : List Card} {c : Card} {f : Card → Nat}
    (h : ∀ x : Card, (c :: cs).count x ≤ f x) :
    ∀ x : Card, cs.count x ≤ Function.update f c (f c - 1) x := by
  intro x
  by_cases he : x = c
  · subst he
    rw [Function.update_same]
    have h0 := h x
    rw [List.count_cons_self] at h0
    omega
  · rw [Function.update_noteq he]
    have h0 := h x
    rw [List.count_cons] at h0
    have hne : (c == x) = false := beq_eq_false_iff_ne.mpr (fun e => he e.symm)
    rw [hne] at h0
    simp only [Bool.false_eq_true, if_false] at h0
    omega

/-- The search-to-hand loop under the presence precondition: every decrement
is exact, each card lands in the matching hand sub-sequence, graveyard and
battlefield are untouched. -/
theorem searchToHandLoop_state (cs : List Card) : ∀ s : GameState,
    (∀ c : Card, cs.count c ≤ s.active_player.library.cards c) →
    cs.length ≤ s.active_player.library.size →
    (searchToHandLoop cs s).active_player.library.size + cs.length =
      s.active_player.library.size ∧
    (searchToHandLoop cs s).active_player.hand.lands =
      s.active_player.hand.lands ++ landsOf cs ∧
    (searchToHandLoop cs s).active_player.hand.spells =
      s.active_player.hand.spells ++ spellsOf cs ∧
    (searchToHandLoop cs s).active_player.graveyard = s.active_player.graveyard ∧
    (searchToHandLoop cs s).active_player.battlefield = s.active_player.battlefield := by
  induction cs with
  | nil =>
    intro s _ _
    exact ⟨rfl, by simp [searchToHandLoop, landsOf],
      by simp [searchToHandLoop, spellsOf], rfl, rfl⟩
  | cons c cs ih =>
    intro s hcnt hlen
    have hsz : 1 ≤ s.active_player.library.size := by
      have := hlen
      simp only [List.length_cons] at this
      omega
    have hcnt' : ∀ x : Card, cs.count x ≤
        (searchToHandStep s c).active_player.library.cards x := by
      have hlib : (searchToHandStep s c).active_player.library.cards =
          Function.update s.active_player.library.cards c
            (s.active_player.library.cards c - 1) := by
        cases c <;> rfl
      rw [hlib]
      exact count_le_update_of_cons hcnt
    have hlen' : cs.length ≤ (searchToHandStep s c).active_player.library.size := by
      have hls : (searchToHandStep s c).active_player.library.size =
          s.active_player.library.size - 1 := by
        cases c <;> rfl
      rw [hls]
      simp only [List.length_cons] at hlen
      omega
    have hstep2 : (searchToHandStep s c).active_player.library.size =
        s.active_player.library.size - 1 := by
      cases c <;> rfl
    rcases ih (searchToHandStep s c) hcnt' hlen' with ⟨i1, i2, i3, i4, i5⟩
    have hcons : searchToHandLoop (c :: cs) s = searchToHandLoop cs (searchToHandStep s c) := rfl
    rw [hcons]
    cases c with
    | land l =>
      refine ⟨?_, ?_, ?_, i4.trans rfl, i5.trans rfl⟩
      · simp only [List.length_cons]
        omega
      · rw [i2]
        show (s.active_player.hand.lands ++ [l]) ++ landsOf cs =
          s.active_player.hand.lands ++ landsOf (.land l :: cs)
        rw [List.append_assoc, landsOf]
        rfl
      · rw [i3]
        show s.active_player.hand.spells ++ spellsOf cs =
          s.active_player.hand.spells ++ spellsOf (.land l :: cs)
        rw [spellsOf]
    | spell sp =>
      refine ⟨?_, ?_, ?_, i4.trans rfl, i5.trans rfl⟩
      · simp only [List.length_cons]
        omega
      · rw [i2]
        show s.active_player.hand.lands ++ landsOf cs =
          s.active_player.hand.lands ++ landsOf (.spell sp :: cs)
        rw [landsOf]
      · rw [i3]
        show (s.active_player.hand.spells ++ [sp]) ++ spellsOf cs =
          s.active_player.hand.spells ++ spellsOf (.spell sp :: cs)
        rw [List.append_assoc, spellsOf]
        rfl

/-- The search-to-hand revert fold: each by-value removal from the hand
succeeds under the multiset precondition, and each card returns to the
library. -/
theorem searchHandRevertFold_totals (cs : List Card) : ∀ t : GameState,
    (∀ l : Land, (landsOf cs).count l ≤ t.active_player.hand.lands.count l) →
    (∀ sp : Spell, (spellsOf cs).count sp ≤ t.active_player.hand.spells.count sp) →
    (cs.foldl searchHandRevertStep t).active_player.hand.lands.length +
      (landsOf cs).length = t.active_player.hand.lands.length ∧
    (cs.foldl searchHandRevertStep t).active_player.hand.spells.length +
      (spellsOf cs).length = t.active_player.hand.spells.length ∧
    (cs.foldl searchHandRevertStep t).active_player.library.size =
      t.active_player.library.size + cs.length ∧
    (cs.foldl searchHandRevertStep t).active_player.graveyard =
      t.active_player.graveyard ∧
    (cs.foldl searchHandRevertStep t).active_player.battlefield =
      t.active_player.battlefield := by
  induction cs with
  | nil => intro t _ _; exact ⟨rfl, rfl, rfl, rfl, rfl⟩
  | cons c cs ih =>
    intro t hld hsd
    rw [List.foldl_cons]
    cases c with
    | land l =>
      have hmem : l ∈ t.active_player.hand.lands := by
        have := hld l
        rw [landsOf, List.count_cons_self] at this
        exact List.count_pos_iff.mp (by omega)
      have hlen : (t.active_player.hand.lands.erase l).length + 1 =
          t.active_player.hand.lands.length := by
        rw [List.length_erase_of_mem hmem]
        have := List.length_pos.mpr (List.ne_nil_of_mem hmem)
        omega
      have hld' : ∀ l' : Land, (landsOf cs).count l' ≤
          (searchHandRevertStep t (.land l)).active_player.hand.lands.count l' := by
        intro l'
        show (landsOf cs).count l' ≤ (t.active_player.hand.lands.erase l).count l'
        rw [List.count_erase]
        have h0 := hld l'
        rw [landsOf, List.count_cons] at h0
        by_cases he : l = l'
        · subst he
          simp only [beq_self_eq_true, if_true] at h0 ⊢
          omega
        · have hne : (l == l') = false := beq_eq_false_iff_ne.mpr he
          rw [hne] at h0 ⊢
          simp only [Bool.false_eq_true, if_false] at h0 ⊢
          omega
      have hsd' : ∀ sp' : Spell, (spellsOf cs).count sp' ≤
          (searchHandRevertStep t (.land l)).active_player.hand.spells.count sp' := by
        intro sp'
        show (spellsOf cs).count sp' ≤ t.active_player.hand.spells.count sp'
        have h0 := hsd sp'
        rw [spellsOf] at h0
        exact h0
      rcases ih (searchHandRevertStep t (.land l)) hld' hsd' with ⟨i1, i2, i3, i4, i5⟩
      have e1 : (searchHandRevertStep t (.land l)).active_player.hand.lands.length + 1 =
          t.active_player.hand.lands.length := hlen
      have e2 : (searchHandRevertStep t (.land l)).active_player.hand.spells.length =
          t.active_player.hand.spells.length := rfl
      have e3 : (searchHandRevertStep t (.land l)).active_player.library.size =
          t.active_player.library.size + 1 := rfl
      refine ⟨?_, ?_, ?_, i4.trans rfl, i5.trans rfl⟩
      · rw [landsOf]
        simp only [List.length_cons]
        omega
      · rw [spellsOf]
        omega
      · simp only [List.length_cons]
        omega
    | spell sp =>
      have hmem : sp ∈ t.active_player.hand.spells := by
        have := hsd sp
        rw [spellsOf, List.count_cons_self] at this
        exact List.count_pos_iff.mp (by omega)
      have hlen : (t.active_player.hand.spells.erase sp).length + 1 =
          t.active_player.hand.spells.length := by
        rw [List.length_erase_of_mem hmem]
        have := List.length_pos.mpr (List.ne_nil_of_mem hmem)
        omega
      have hld' : ∀ l' : Land, (landsOf cs).count l' ≤
          (searchHandRevertStep t (.spell sp)).active_player.hand.lands.count l' := by
        intro l'
        show (landsOf cs).count l' ≤ t.active_player.hand.lands.count l'
        have h0 := hld l'
        rw [landsOf] at h0
        exact h0
      have hsd' : ∀ sp' : Spell, (spellsOf cs).count sp' ≤
          (searchHandRevertStep t (.spell sp)).active_player.hand.spells.count sp' := by
        intro sp'
        show (spellsOf cs).count sp' ≤ (t.active_player.hand.spells.erase sp).count sp'
        rw [List.count_erase]
        have h0 := hsd sp'
        rw [spellsOf, List.count_cons] at h0
        by_cases he : sp = sp'
        · subst he
          simp only [beq_self_eq_true, if_true] at h0 ⊢
          omega
        · have hne : (sp == sp') = false := beq_eq_false_iff_ne.mpr he
          rw [hne] at h0 ⊢
          simp only [Bool.false_eq_true, if_false] at h0 ⊢
          omega
      rcases ih (searchHandRevertStep t (.spell sp)) hld' hsd' with ⟨i1, i2, i3, i4, i5⟩
      have e1 : (searchHandRevertStep t (.spell sp)).active_player.hand.spells.length + 1 =
          t.active_player.hand.spells.length := hlen
      have e2 : (searchHandRevertStep t (.spell sp)).active_player.hand.lands.length =
          t.active_player.hand.lands.length := rfl
      have e3 : (searchHandRevertStep t (.spell sp)).active_player.library.size =
          t.active_player.library.size + 1 := rfl
      refine ⟨?_, ?_, ?_, i4.trans rfl, i5.trans rfl⟩
      · rw [landsOf]
        omega
      · rw [spellsOf]
        simp only [List.length_cons]
        omega
      · simp only [List.length_cons]
        omega

/-- Conservation for a `SearchLibraryToHand` apply/revert pair under the
presence precondition. -/
theorem searchHandPair_totals (cs : List Card) (s : GameState)
    (hcnt : ∀ c : Card, cs.count c ≤ s.active_player.library.cards c)
    (hlen : cs.length ≤ s.active_player.library.size) :
    ((PrimitiveGameActionResult.searchLibraryToHand cs).revert
      (searchToHandLoop cs s)).totalCards = s.totalCards := by
  rcases searchToHandLoop_state cs s hcnt hlen with ⟨hsz, hhl, hhs, hgy, hbf⟩
  have hld : ∀ l : Land, (landsOf cs.reverse).count l ≤
      (searchToHandLoop cs s).active_player.hand.lands.count l := by
    intro l
    rw [count_landsOf, List.count_reverse, ← count_landsOf, hhl,
      List.count_append]
    omega
  have hsd : ∀ sp : Spell, (spellsOf cs.reverse).count sp ≤
      (searchToHandLoop cs s).active_player.hand.spells.count sp := by
    intro sp
    rw [count_spellsOf, List.count_reverse, ← count_spellsOf, hhs,
      List.count_append]
    omega
  rcases searchHandRevertFold_totals cs.reverse (searchToHandLoop cs s) hld hsd
    with ⟨i1, i2, i3, i4, i5⟩
  show (cs.reverse.foldl searchHandRevertStep (searchToHandLoop cs s)).totalCards =
    s.totalCards
  have hll : (landsOf cs.reverse).length = (landsOf cs).length := by
    rw [length_landsOf, length_landsOf, List.countP_reverse]
  have hsl : (spellsOf cs.reverse).length = (spellsOf cs).length := by
    rw [length_spellsOf, length_spellsOf, List.countP_reverse]
  refine totalCards_congr ?_ ?_ ?_ ?_ ?_ ?_ ?_
  · rw [i3]
    rw [List.length_reverse]
    omega
  · have h1 : (searchToHandLoop cs s).active_player.hand.lands.length =
        s.active_player.hand.lands.length + (landsOf cs).length := by
      rw [hhl, List.length_append]
    omega
  · have h1 : (searchToHandLoop cs s).active_player.hand.spells.length =
        s.active_player.hand.spells.length + (spellsOf cs).length := by
      rw [hhs, List.length_append]
    omega
  · rw [i5, hbf]
  · rw [i5, hbf]
  · rw [i4, hgy]
  · rw [i4, hgy]

-- ===========================================================================
-- C2 part 4 : SearchLibraryToBattlefield pair
-- ===========================================================================

theorem ObjMap.remove_not_mem {A : Type} (m : ObjMap A) (k : GameObjectId)
    (h : k ∉ ObjMap.keys m) : m.remove k = (none, m) := by
  unfold ObjMap.remove
  rw [ObjMap.filter_ne_of_not_mem_keys m k h]
  have hf : m.find? (fun p => p.1 = k) = none := by
    apply List.find?_eq_none.mpr
    intro p hp
    simp only [decide_eq_true_eq]
    intro he
    exact h (he ▸ List.mem_map_of_mem _ hp)
  rw [hf]
  rfl

theorem ObjMap.insert_remove {A : Type} (m : ObjMap A) (k : GameObjectId)
    (v : GameObject A) (h : k ∉ ObjMap.keys m) :
    (m.insert k v).remove k = (some v, m) := by
  unfold ObjMap.insert ObjMap.remove
  rw [ObjMap.filter_ne_of_not_mem_keys m k h]
  rw [List.find?_cons_of_pos _ (by simp)]
  rw [List.filter_cons_of_neg (by simp)]
  rw [ObjMap.filter_ne_of_not_mem_keys m k h]
  rfl

/-- Reverting an id that is the freshest key of the lands map removes exactly
that entry and returns its card to the library. -/
theorem sbrStep_lands_insert {st : GameState} {id : GameObjectId}
    {v : GameObject Land} {m : ObjMap Land}
    (hbf : st.active_player.battlefield.lands = ObjMap.insert m id v)
    (hfresh : id ∉ ObjMap.keys m) :
    searchBattlefieldRevertStep st id =
      { st with active_player :=
        { st.active_player with
          battlefield := { st.active_player.battlefield with lands := m }
          library := st.active_player.library.add_card (.land v.permanent) } } := by
  have hrm : st.active_player.battlefield.lands.remove id = (some v, m) := by
    rw [hbf]
    exact ObjMap.insert_remove m id v hfresh
  unfold searchBattlefieldRevertStep
  rw [hrm]

/-- Reverting an id that is absent from lands and the freshest key of the
non-lands map removes that entry and returns its card to the library. -/
theorem sbrStep_nonlands_insert {st : GameState} {id : GameObjectId}
    {v : GameObject Permanent} {m : ObjMap Permanent}
    (hlands : id ∉ ObjMap.keys st.active_player.battlefield.lands)
    (hbf : st.active_player.battlefield.non_lands = ObjMap.insert m id v)
    (hfresh : id ∉ ObjMap.keys m) :
    searchBattlefieldRevertStep st id =
      { st with active_player :=
        { st.active_player with
          battlefield := { st.active_player.battlefield with non_lands := m }
          library := st.active_player.library.add_card
            (.spell (.permanent v.permanent)) } } := by
  have hrm1 : st.active_player.battlefield.lands.remove id =
      (none, st.active_player.battlefield.lands) :=
    ObjMap.remove_not_mem _ id hlands
  have hrm2 : st.active_player.battlefield.non_lands.remove id = (some v, m) := by
    rw [hbf]
    exact ObjMap.insert_remove m id v hfresh
  unfold searchBattlefieldRevertStep
  rw [hrm1, hrm2]

theorem s2bStep_library (s : GameState) (o : GameObject Card) :
    (searchToBattlefieldStep s o).2.active_player.library.cards =
      Function.update s.active_player.library.cards o.permanent
        (s.active_player.library.cards o.permanent - 1) ∧
    (searchToBattlefieldStep s o).2.active_player.library.size =
      s.active_player.library.size - 1 := by
  rcases o with ⟨cp, ts⟩
  rcases cp with l | sp
  · exact ⟨rfl, rfl⟩
  · rcases sp with p | np <;> exact ⟨rfl, rfl⟩

theorem s2bStep_untouched (s : GameState) (o : GameObject Card) :
    (searchToBattlefieldStep s o).2.active_player.hand = s.active_player.hand ∧
    (searchToBattlefieldStep s o).2.active_player.graveyard =
      s.active_player.graveyard ∧
    (searchToBattlefieldStep s o).2.stack = s.stack := by
  rcases o with ⟨cp, ts⟩
  rcases cp with l | sp
  · exact ⟨rfl, rfl, rfl⟩
  · rcases sp with p | np <;> exact ⟨rfl, rfl, rfl⟩

theorem s2bLoop_cons_snd (o : GameObject Card) (os : List (GameObject Card))
    (s : GameState) :
    (searchToBattlefieldLoop (o :: os) s).2 =
      (searchToBattlefieldLoop os (searchToBattlefieldStep s o).2).2 := by
  conv_lhs => rw [searchToBattlefieldLoop]
  rcases h : searchToBattlefieldStep s o with ⟨o1, s1⟩
  cases o1 <;> rfl

theorem s2bLoop_untouched (objs : List (GameObject Card)) : ∀ s : GameState,
    (searchToBattlefieldLoop objs s).2.active_player.hand =
      s.active_player.hand ∧
    (searchToBattlefieldLoop objs s).2.active_player.graveyard =
      s.active_player.graveyard ∧
    (searchToBattlefieldLoop objs s).2.stack = s.stack := by
  induction objs with
  | nil => intro s; exact ⟨rfl, rfl, rfl⟩
  | cons o os ih =>
    intro s
    rcases s2bStep_untouched s o with ⟨e1, e2, e3⟩
    rcases ih (searchToBattlefieldStep s o).2 with ⟨i1, i2, i3⟩
    rw [s2bLoop_cons_snd]
    exact ⟨i1.trans e1, i2.trans e2, i3.trans e3⟩

/-- Library size through the search-to-battlefield loop under the presence
precondition: one card leaves the library per entry. -/
theorem s2bLoop_size (objs : List (GameObject Card)) : ∀ s : GameState,
    (∀ c : Card, (objs.map (fun o => o.permanent)).count c ≤
      s.active_player.library.cards c) →
    objs.length ≤ s.active_player.library.size →
    (searchToBattlefieldLoop objs s).2.active_player.library.size +
      objs.length = s.active_player.library.size := by
  induction objs with
  | nil => intro s _ _; rfl
  | cons o os ih =>
    intro s hcnt hlen
    rcases s2bStep_library s o with ⟨hcards, hsize⟩
    have hcnt' : ∀ c : Card, (os.map (fun o => o.permanent)).count c ≤
        (searchToBattlefieldStep s o).2.active_player.library.cards c := by
      rw [hcards]
      exact count_le_update_of_cons (by
        intro x
        have h0 := hcnt x
        rw [List.map_cons] at h0
        exact h0)
    have hlen' : os.length ≤
        (searchToBattlefieldStep s o).2.active_player.library.size := by
      rw [hsize]
      simp only [List.length_cons] at hlen
      omega
    rw [s2bLoop_cons_snd]
    have := ih (searchToBattlefieldStep s o).2 hcnt' hlen'
    simp only [List.length_cons] at hlen ⊢
    omega

/-- The search-to-battlefield apply/revert pair restores the battlefield
exactly and returns one card to the library per minted id. -/
theorem s2bPair_restore (objs : List (GameObject Card)) : ∀ s : GameState,
    s.idsOk →
    (∀ o ∈ objs, o.permanent.isNonPermanentSpell = false) →
    ((searchToBattlefieldLoop objs s).1.reverse.foldl searchBattlefieldRevertStep
      (searchToBattlefieldLoop objs s).2).active_player.battlefield =
      s.active_player.battlefield ∧
    ((searchToBattlefieldLoop objs s).1.reverse.foldl searchBattlefieldRevertStep
      (searchToBattlefieldLoop objs s).2).active_player.library.size =
      (searchToBattlefieldLoop objs s).2.active_player.library.size +
        (searchToBattlefieldLoop objs s).1.length := by
  induction objs with
  | nil => intro s _ _; exact ⟨rfl, rfl⟩
  | cons o os ih =>
    intro s hids hnp
    rcases s2bStep_spec s o with ⟨_, hland, hperm⟩
    have hno : o.permanent.isNonPermanentSpell = false :=
      hnp o (List.mem_cons_self o os)
    have hnos : ∀ o' ∈ os, o'.permanent.isNonPermanentSpell = false :=
      fun o' ho' => hnp o' (List.mem_cons_of_mem o ho')
    rcases hcp : o.permanent with l | sp
    · rcases hland (by rw [hcp]; rfl) with ⟨v, h1, h2, h3⟩
      have hstep : searchToBattlefieldStep s o =
          (some s.next_id, (searchToBattlefieldStep s o).2) := by rw [← h1]
      have hfresh : s.next_id ∉ ObjMap.keys s.active_player.battlefield.lands :=
        fun hk => Nat.lt_irrefl _ (hids.1 _ hk)
      have hids1 : (searchToBattlefieldStep s o).2.idsOk := by
        unfold GameState.idsOk
        rw [h3, h2]
        exact Battlefield.idsOk_insert_lands hids v
      rw [s2bLoop_cons_some hstep]
      rcases ih (searchToBattlefieldStep s o).2 hids1 hnos with ⟨ibf, isz⟩
      rw [List.reverse_cons, List.foldl_append]
      have hinner : ((searchToBattlefieldLoop os (searchToBattlefieldStep s o).2).1.reverse.foldl
          searchBattlefieldRevertStep
          (searchToBattlefieldLoop os (searchToBattlefieldStep s o).2).2).active_player.battlefield =
          { s.active_player.battlefield with
            lands := s.active_player.battlefield.lands.insert s.next_id v } :=
        ibf.trans h2
      have hinlands : ((searchToBattlefieldLoop os (searchToBattlefieldStep s o).2).1.reverse.foldl
          searchBattlefieldRevertStep
          (searchToBattlefieldLoop os (searchToBattlefieldStep s o).2).2).active_player.battlefield.lands =
          ObjMap.insert s.active_player.battlefield.lands s.next_id v := by
        rw [hinner]
      have hsbr := sbrStep_lands_insert hinlands hfresh
      show (List.foldl searchBattlefieldRevertStep
        ((searchToBattlefieldLoop os (searchToBattlefieldStep s o).2).1.reverse.foldl
          searchBattlefieldRevertStep
          (searchToBattlefieldLoop os (searchToBattlefieldStep s o).2).2)
        [s.next_id]).active_player.battlefield = s.active_player.battlefield ∧ _
      constructor
      · show (searchBattlefieldRevertStep _ s.next_id).active_player.battlefield =
          s.active_player.battlefield
        rw [hsbr]
        show { ((searchToBattlefieldLoop os (searchToBattlefieldStep s o).2).1.reverse.foldl
            searchBattlefieldRevertStep
            (searchToBattlefieldLoop os (searchToBattlefieldStep s o).2).2).active_player.battlefield
          with lands := s.active_player.battlefield.lands } = s.active_player.battlefield
        rw [hinner]
      · show (searchBattlefieldRevertStep _ s.next_id).active_player.library.size =
          (searchToBattlefieldLoop os (searchToBattlefieldStep s o).2).2.active_player.library.size +
            (s.next_id :: (searchToBattlefieldLoop os (searchToBattlefieldStep s o).2).1).length
        rw [hsbr]
        show ((searchToBattlefieldLoop os (searchToBattlefieldStep s o).2).1.reverse.foldl
            searchBattlefieldRevertStep
            (searchToBattlefieldLoop os (searchToBattlefieldStep s o).2).2).active_player.library.size + 1 =
          (searchToBattlefieldLoop os (searchToBattlefieldStep s o).2).2.active_player.library.size +
            (s.next_id :: (searchToBattlefieldLoop os (searchToBattlefieldStep s o).2).1).length
        simp only [List.length_cons]
        omega
    · rcases sp with p | np
      · rcases hperm (by rw [hcp]; rfl) with ⟨v, h1, h2, h3⟩
        have hstep : searchToBattlefieldStep s o =
            (some s.next_id, (searchToBattlefieldStep s o).2) := by rw [← h1]
        have hfreshL : s.next_id ∉ ObjMap.keys s.active_player.battlefield.lands :=
          fun hk => Nat.lt_irrefl _ (hids.1 _ hk)
        have hfresh : s.next_id ∉ ObjMap.keys s.active_player.battlefield.non_lands :=
          fun hk => Nat.lt_irrefl _ (hids.2.1 _ hk)
        have hids1 : (searchToBattlefieldStep s o).2.idsOk := by
          unfold GameState.idsOk
          rw [h3, h2]
          exact Battlefield.idsOk_insert_non_lands hids v
        rw [s2bLoop_cons_some hstep]
        rcases ih (searchToBattlefieldStep s o).2 hids1 hnos with ⟨ibf, isz⟩
        rw [List.reverse_cons, List.foldl_append]
        have hinner : ((searchToBattlefieldLoop os (searchToBattlefieldStep s o).2).1.reverse.foldl
            searchBattlefieldRevertStep
            (searchToBattlefieldLoop os (searchToBattlefieldStep s o).2).2).active_player.battlefield =
            { s.active_player.battlefield with
              non_lands := s.active_player.battlefield.non_lands.insert s.next_id v } :=
          ibf.trans h2
        have hinnl : ((searchToBattlefieldLoop os (searchToBattlefieldStep s o).2).1.reverse.foldl
            searchBattlefieldRevertStep
            (searchToBattlefieldLoop os (searchToBattlefieldStep s o).2).2).active_player.battlefield.non_lands =
            ObjMap.insert s.active_player.battlefield.non_lands s.next_id v := by
          rw [hinner]
        have hinl : ((searchToBattlefieldLoop os (searchToBattlefieldStep s o).2).1.reverse.foldl
            searchBattlefieldRevertStep
            (searchToBattlefieldLoop os (searchToBattlefieldStep s o).2).2).active_player.battlefield.lands =
            s.active_player.battlefield.lands := by
          rw [hinner]
        have hsbr := sbrStep_nonlands_insert (hinl ▸ hfreshL) hinnl hfresh
        constructor
        · show (searchBattlefieldRevertStep _ s.next_id).active_player.battlefield =
            s.active_player.battlefield
          rw [hsbr]
          show { ((searchToBattlefieldLoop os (searchToBattlefieldStep s o).2).1.reverse.foldl
              searchBattlefieldRevertStep
              (searchToBattlefieldLoop os (searchToBattlefieldStep s o).2).2).active_player.battlefield
            with non_lands := s.active_player.battlefield.non_lands } =
            s.active_player.battlefield
          rw [hinner]
        · show (searchBattlefieldRevertStep _ s.next_id).active_player.library.size =
            (searchToBattlefieldLoop os (searchToBattlefieldStep s o).2).2.active_player.library.size +
              (s.next_id :: (searchToBattlefieldLoop os (searchToBattlefieldStep s o).2).1).length
          rw [hsbr]
          show ((searchToBattlefieldLoop os (searchToBattlefieldStep s o).2).1.reverse.foldl
              searchBattlefieldRevertStep
              (searchToBattlefieldLoop os (searchToBattlefieldStep s o).2).2).active_player.library.size + 1 =
            (searchToBattlefieldLoop os (searchToBattlefieldStep s o).2).2.active_player.library.size +
              (s.next_id :: (searchToBattlefieldLoop os (searchToBattlefieldStep s o).2).1).length
          simp only [List.length_cons]
          omega
      · rw [hcp] at hno
        exact absurd hno (by simp [Card.isNonPermanentSpell])

theorem sbrStep_untouched (u : GameState) (id : GameObjectId) :
    (searchBattlefieldRevertStep u id).active_player.hand = u.active_player.hand ∧
    (searchBattlefieldRevertStep u id).active_player.graveyard =
      u.active_player.graveyard := by
  unfold searchBattlefieldRevertStep
  split
  · exact ⟨rfl, rfl⟩
  · split
    · exact ⟨rfl, rfl⟩
    · exact ⟨rfl, rfl⟩

/-- Conservation for a `SearchLibraryToBattlefield` apply/revert pair under
the presence precondition and with no non-permanent entries. -/
theorem s2bPair_totals (objs : List (GameObject Card)) (s : GameState)
    (hids : s.idsOk)
    (hcnt : ∀ c : Card, (objs.map (fun o => o.permanent)).count c ≤
      s.active_player.library.cards c)
    (hlen : objs.length ≤ s.active_player.library.size)
    (hnp : ∀ o ∈ objs, o.permanent.isNonPermanentSpell = false) :
    ((PrimitiveGameActionResult.searchLibraryToBattlefield
      (searchToBattlefieldLoop objs s).1).revert
      (searchToBattlefieldLoop objs s).2).totalCards = s.totalCards := by
  rcases s2bPair_restore objs s hids hnp with ⟨hbf, hsz⟩
  have hids_len : (searchToBattlefieldLoop objs s).1.length = objs.length := by
    rw [(s2bLoop_spec objs s hids).1]
    apply List.countP_eq_length.mpr
    intro o ho
    rw [hnp o ho]
    rfl
  have hsize0 := s2bLoop_size objs s hcnt hlen
  rcases s2bLoop_untouched objs s with ⟨hh, hg, _⟩
  have hunt := foldl_rel
    (fun u v => v.active_player.hand = u.active_player.hand ∧
      v.active_player.graveyard = u.active_player.graveyard)
    (fun u => ⟨rfl, rfl⟩)
    (fun h1 h2 => ⟨h2.1.trans h1.1, h2.2.trans h1.2⟩)
    searchBattlefieldRevertStep
    (fun u id => sbrStep_untouched u id)
    (searchToBattlefieldLoop objs s).1.reverse
    (searchToBattlefieldLoop objs s).2
  show ((searchToBattlefieldLoop objs s).1.reverse.foldl searchBattlefieldRevertStep
    (searchToBattlefieldLoop objs s).2).totalCards = s.totalCards
  refine totalCards_congr ?_ ?_ ?_ ?_ ?_ ?_ ?_
  · omega
  · rw [hunt.1, hh]
  · rw [hunt.1, hh]
  · rw [hbf]
  · rw [hbf]
  · rw [hunt.2, hg]
  · rw [hunt.2, hg]

-- ===========================================================================
-- C2 part 5 : PlayLand pair and the conservation theorem
-- ===========================================================================

/-- Conservation for a `PlayLand` apply/revert pair: the freshly inserted
object is removed again exactly. -/
theorem playLandPair_totals (l : Land) (ts : TapState) (s : GameState)
    (hids : s.idsOk) :
    (((PrimitiveGameAction.playLand l ts).apply s).1.revert
      ((PrimitiveGameAction.playLand l ts).apply s).2).totalCards =
      s.totalCards := by
  have hfresh : s.next_id ∉ ObjMap.keys s.active_player.battlefield.lands :=
    fun hk => Nat.lt_irrefl _ (hids.1 _ hk)
  have hrm := ObjMap.insert_remove s.active_player.battlefield.lands s.next_id
    ⟨l, ts⟩ hfresh
  refine totalCards_congr rfl rfl rfl ?_ rfl rfl rfl
  show ((ObjMap.insert s.active_player.battlefield.lands s.next_id
    ⟨l, ts⟩).remove s.next_id).2.length = s.active_player.battlefield.lands.length
  rw [congrArg Prod.snd hrm]

/-- The per-action precondition under which an apply/revert pair conserves
the total card count: searches must find every listed card in the library
(no saturating decrement) and battlefield searches must contain no
non-permanent spell entry; `Sequence` is excluded. -/
def PrimitiveGameAction.pairPre : PrimitiveGameAction → GameState → Prop
  | .searchLibraryToHand cs, s =>
    (∀ c : Card, cs.count c ≤ s.active_player.library.cards c) ∧
      cs.length ≤ s.active_player.library.size
  | .searchLibraryToBattlefield objs, s =>
    (∀ c : Card, (objs.map (fun o => o.permanent)).count c ≤
      s.active_player.library.cards c) ∧
      objs.length ≤ s.active_player.library.size ∧
      (∀ o ∈ objs, o.permanent.isNonPermanentSpell = false)
  | _, _ => True

/-- Pair precondition lifted to `GameAction` (no `Sequence`). -/
def GameAction.pairPre : GameAction → GameState → Prop
  | .primitive p, s => p.pairPre s
  | .sequence _, _ => False
  | _, _ => True

/-- C2 amended: (a) `size == sum of counts` is preserved by every sequence
of draw/add operations in which no `add_card` overflows its `u8` count; and
(b) for every non-`Sequence` action whose apply performs no saturating
library decrement (every searched card present) and passes no non-permanent
spell to `SearchLibraryToBattlefield`, on a state with valid battlefield
ids, the total card count across the active player's Library, Hand,
Battlefield and Graveyard is unchanged by an apply followed by its revert. -/
theorem C2_conservation_amended :
    (∀ (ops : List LibOp) (lib : Library), libOpsOk ops lib → lib.sizeInv →
      (runLibOps ops lib).sizeInv) ∧
    (∀ (a : GameAction) (s : GameState), a.pairPre s → s.idsOk →
      (((a.apply s).1).revert (a.apply s).2).totalCards = s.totalCards) := by
  refine ⟨runLibOps_sizeInv, ?_⟩
  intro a s hpre hids
  cases a with
  | passPriority => rw [gamePair_exact .passPriority s rfl]
  | castSpell sp => rw [gamePair_exact (.castSpell sp) s rfl]
  | activateAbility src t => rw [gamePair_exact (.activateAbility src t) s rfl]
  | sequence ps => exact hpre.elim
  | primitive p =>
    cases p with
    | drawCards n => exact drawPair_totals n s
    | millCards n => exact millPair_totals n s
    | playLand l ts => exact playLandPair_totals l ts s hids
    | increaseLandPlays n =>
      rw [gamePair_exact (.primitive (.increaseLandPlays n)) s rfl]
    | trigger t => rw [gamePair_exact (.primitive (.trigger t)) s rfl]
    | searchLibraryToHand cs => exact searchHandPair_totals cs s hpre.1 hpre.2
    | searchLibraryToBattlefield objs =>
      exact s2bPair_totals objs s hids hpre.1 hpre.2.1 hpre.2.2

/-- C2 counterexample: the claim fails as stated.  Searching a `Forest` out
of an *empty* library saturates the library decrement at zero, so after the
apply/revert pair the library holds a Forest that never existed: the total
across the four zones goes from 0 to 1. -/
theorem C2_counterexample :
    (((GameAction.primitive (.searchLibraryToHand [.land .forest])).apply
        baseState).1.revert
      ((GameAction.primitive (.searchLibraryToHand [.land .forest])).apply
        baseState).2).totalCards ≠ baseState.totalCards := by
  decide

/-- C2 witness: the invariant-preservation part on a concrete add/draw
sequence, and the conservation part on a concrete `DrawCards(1)` pair. -/
theorem C2_witness :
    libOpsOk [LibOp.add (.land .forest), LibOp.draw] emptyLibrary ∧
      emptyLibrary.sizeInv ∧
      (runLibOps [LibOp.add (.land .forest), LibOp.draw] emptyLibrary).sizeInv ∧
      forestState.idsOk ∧
      (((GameAction.primitive (.drawCards 1)).apply forestState).1.revert
        ((GameAction.primitive (.drawCards 1)).apply forestState).2).totalCards =
        forestState.totalCards :=
  ⟨⟨by decide, trivial, trivial⟩,
   show emptyLibrary.size = sumCounts emptyLibrary.cards by decide,
   C2_conservation_amended.1 [LibOp.add (.land .forest), LibOp.draw] emptyLibrary
     ⟨by decide, trivial, trivial⟩
     (show emptyLibrary.size = sumCounts emptyLibrary.cards by decide),
   by unfold GameState.idsOk Battlefield.idsOk; decide,
   C2_conservation_amended.2 (GameAction.primitive (.drawCards 1)) forestState
     trivial (by unfold GameState.idsOk Battlefield.idsOk; decide)⟩

end Atlas